import Mathlib

/-!
Verification of the dump-truck discrete-event simulation
(`simulation.js` and its near-duplicate companion file).

Times and probabilities are embedded as rationals (`ℚ`); the JavaScript
floating-point arithmetic carries no float-specific behaviour in the
claims under study, which are about control flow, ordering and exact
bookkeeping.  The busy counters (`state.L`, `state.W`, `state.LQ`,
`state.WQ`) are JavaScript numbers that are incremented and decremented
without clamping, so they are embedded as integers (`ℤ`).

`Math.random()` is embedded as an ambient stream `rand : ℕ → ℚ` of
draws together with an index `randIdx`; each call of the source's
`getRandomTime` consumes the draw at the current index and advances
the index.
-/

namespace DumpTruck

/-- One row of a cumulative probability table
(`{ time: ..., cum_prob: ... }` in the source). -/
structure Entry where
  time : ℚ
  cum_prob : ℚ
deriving DecidableEq, Repr

/-- The three event kinds dispatched by `Simulation.run`:
`'ALQ'` (arrive at loader queue), `'EL'` (end loading), `'EW'` (end weighing). -/
inductive EventKind where
  | ALQ
  | EL
  | EW
deriving DecidableEq, Repr

/-- A future-event-list record `{ time, type, truckId }`. -/
structure Event where
  time : ℚ
  kind : EventKind
  truckId : ℕ
deriving DecidableEq, Repr

/-- Truck phases, as stored in `trucks[i].state`
(states: IDLE, LOADING, WEIGHING, TRAVELING, IN_LQ, IN_WQ). -/
inductive TruckState where
  | IDLE
  | LOADING
  | WEIGHING
  | TRAVELING
  | IN_LQ
  | IN_WQ
deriving DecidableEq, Repr

/-- The configuration-validation failures of the source, one constructor per
`throw new Error(...)` class: a malformed line, a probability outside `[0,1]`
(`parseDistribution`), and a probability sum away from 1.0
(`createCumulativeTable`). -/
inductive DistError where
  | MalformedLine
  | ProbOutOfRange
  | InvalidDistribution
deriving DecidableEq, Repr

/-- Embeds the numeric validation of `parseDistribution`: every parsed
`(time, prob)` pair must have `0 ≤ prob ≤ 1`, otherwise the function throws.
The textual lexing (`split`, `parseFloat`) is presentation-layer input
decoding; the input here is the list of numeric pairs, one per line. -/
def parseDistribution (pairs : List (ℚ × ℚ)) : Except DistError (List (ℚ × ℚ)) :=
  if pairs.any (fun pr => decide (pr.2 < 0) || decide (1 < pr.2)) then
    .error .ProbOutOfRange
  else
    .ok pairs

/-- Sum of the probabilities of a distribution list
(`dist.reduce((sum, item) => sum + item.prob, 0)`). -/
def probSum (dist : List (ℚ × ℚ)) : ℚ :=
  (dist.map Prod.snd).sum

/-- The running-sum loop of `createCumulativeTable`: `cum_prob` starts at the
accumulator `c` and each entry records the sum up to and including itself. -/
def cumAux (c : ℚ) : List (ℚ × ℚ) → List Entry
  | [] => []
  | (t, p) :: rest => ⟨t, c + p⟩ :: cumAux (c + p) rest

/-- `cumTable[cumTable.length - 1].cum_prob = 1.0`: pin the final entry of a
cumulative table to exactly 1 (a no-op on the empty list, matching the
source's length guard). -/
def pinLast : List Entry → List Entry
  | [] => []
  | [e] => [⟨e.time, 1⟩]
  | e :: rest => e :: pinLast rest

/-- `createCumulativeTable(dist, name)`: reject the distribution when the
total probability deviates from 1.0 by more than 0.001, otherwise return
the running sums with the final entry pinned to exactly 1.0. -/
def createCumulativeTable (dist : List (ℚ × ℚ)) : Except DistError (List Entry) :=
  if 1/1000 < |probSum dist - 1| then
    .error .InvalidDistribution
  else
    .ok (pinLast (cumAux 0 dist))

/-- `getRandomTime` over a cumulative table at a given uniform draw `r`:
scan the table in order and return the `time` of the first entry with
`r ≤ cum_prob`; fall back to the last entry's `time`.  On the empty table the
source indexes `table[-1]` (a runtime error); the embedding totalizes that
unreachable case with 0 (tables built by `createCumulativeTable` are never
empty). -/
def getRandomTime (table : List Entry) (r : ℚ) : ℚ :=
  match table.find? (fun e => decide (r ≤ e.cum_prob)) with
  | some e => e.time
  | none => ((table.getLast?).map Entry.time).getD 0

/-- The three cumulative tables handed to the `Simulation` constructor
(`cumProbs = { loading, weighing, travel }`). -/
structure CumProbs where
  loading : List Entry
  weighing : List Entry
  travel : List Entry

/-- The mutable state of one `Simulation` instance: constructor parameters,
clock, future event list, the `state` counters (`LQ`, `L`, `WQ`, `W`), the two
FIFO wait lists, the per-truck phases (index `i` holds truck `i + 1`), the two
busy-time integrals, and the random stream with its next-draw index.
The textual log is presentation output and is not embedded. -/
structure SimState where
  numTrucks : ℕ
  numLoaders : ℕ
  numScales : ℕ
  maxSimTime : ℚ
  cumProbs : CumProbs
  clock : ℚ
  FEL : List Event
  LQ : ℤ
  L : ℤ
  WQ : ℤ
  W : ℤ
  loaderQueue : List ℕ
  weigherQueue : List ℕ
  trucks : List TruckState
  loaderBusyTime : ℚ
  scaleBusyTime : ℚ
  rand : ℕ → ℚ
  randIdx : ℕ

/-- `this.trucks[truckId - 1].state = st` (out-of-range writes never occur in
a run; `List.set` leaves the list unchanged there). -/
def setTruck (s : SimState) (truckId : ℕ) (st : TruckState) : SimState :=
  { s with trucks := s.trucks.set (truckId - 1) st }

/-- Ordered insertion of an event by `time`.  The source pushes the event and
re-sorts with the stable `Array.prototype.sort((a, b) => a.time - b.time)`;
since the list is sorted before every push, the stable sort places the new
event after every resident event of equal or earlier time — exactly this
insertion. -/
def insertEvent (e : Event) : List Event → List Event
  | [] => [e]
  | x :: xs => if x.time ≤ e.time then x :: insertEvent e xs else e :: x :: xs

/-- `addEvent`: place an event into the future event list kept sorted by
time. -/
def addEvent (s : SimState) (e : Event) : SimState :=
  { s with FEL := insertEvent e s.FEL }

/-- `handleALQ`: the truck arrives at the loader queue; if a loader is free it
starts loading at once and schedules its `EL`, otherwise it joins the FIFO
loader queue. -/
def handleALQ (s : SimState) (truckId : ℕ) : SimState :=
  let s1 := setTruck s truckId .IN_LQ
  if s1.L < (s1.numLoaders : ℤ) then
    let s2 := setTruck { s1 with L := s1.L + 1 } truckId .LOADING
    let loadTime := getRandomTime s2.cumProbs.loading (s2.rand s2.randIdx)
    addEvent { s2 with randIdx := s2.randIdx + 1 } ⟨s2.clock + loadTime, .EL, truckId⟩
  else
    { s1 with LQ := s1.LQ + 1, loaderQueue := s1.loaderQueue ++ [truckId] }

/-- `handleEL`: the truck frees its loader, is admitted to the scale or joins
the scale queue, and then — in the same step — the head of the loader queue
(if any) is dequeued, starts loading and schedules its own `EL`. -/
def handleEL (s : SimState) (truckId : ℕ) : SimState :=
  let s1 := setTruck { s with L := s.L - 1 } truckId .IN_WQ
  let s2 :=
    if s1.W < (s1.numScales : ℤ) then
      let t := setTruck { s1 with W := s1.W + 1 } truckId .WEIGHING
      let weighTime := getRandomTime t.cumProbs.weighing (t.rand t.randIdx)
      addEvent { t with randIdx := t.randIdx + 1 } ⟨t.clock + weighTime, .EW, truckId⟩
    else
      { s1 with WQ := s1.WQ + 1, weigherQueue := s1.weigherQueue ++ [truckId] }
  if 0 < s2.LQ then
    match s2.loaderQueue with
    | [] => s2
    | nextTruckId :: restQ =>
      let t := setTruck { s2 with loaderQueue := restQ, LQ := s2.LQ - 1, L := s2.L + 1 }
        nextTruckId .LOADING
      let loadTime := getRandomTime t.cumProbs.loading (t.rand t.randIdx)
      addEvent { t with randIdx := t.randIdx + 1 } ⟨t.clock + loadTime, .EL, nextTruckId⟩
  else s2

/-- `handleEW`: the truck frees its scale, unconditionally starts traveling
(scheduling its next `ALQ`), and then the head of the scale queue (if any)
is dequeued, starts weighing and schedules its own `EW` in the same step. -/
def handleEW (s : SimState) (truckId : ℕ) : SimState :=
  let s1 := setTruck { s with W := s.W - 1 } truckId .TRAVELING
  let travelTime := getRandomTime s1.cumProbs.travel (s1.rand s1.randIdx)
  let s2 := addEvent { s1 with randIdx := s1.randIdx + 1 }
    ⟨s1.clock + travelTime, .ALQ, truckId⟩
  if 0 < s2.WQ then
    match s2.weigherQueue with
    | [] => s2
    | nextTruckId :: restQ =>
      let t := setTruck { s2 with weigherQueue := restQ, WQ := s2.WQ - 1, W := s2.W + 1 }
        nextTruckId .WEIGHING
      let weighTime := getRandomTime t.cumProbs.weighing (t.rand t.randIdx)
      addEvent { t with randIdx := t.randIdx + 1 } ⟨t.clock + weighTime, .EW, nextTruckId⟩
  else s2

/-- One iteration of the problem-specific initialization's loader loop:
place a truck at a loader if one is free, otherwise into the loader queue. -/
def placeAtLoader (s : SimState) (truckId : ℕ) : SimState :=
  if s.L < (s.numLoaders : ℤ) then
    let t := setTruck { s with L := s.L + 1 } truckId .LOADING
    let loadTime := getRandomTime t.cumProbs.loading (t.rand t.randIdx)
    addEvent { t with randIdx := t.randIdx + 1 } ⟨t.clock + loadTime, .EL, truckId⟩
  else
    setTruck { s with LQ := s.LQ + 1, loaderQueue := s.loaderQueue ++ [truckId] }
      truckId .IN_LQ

/-- The problem-specific initialization's scale placement: put the truck on
the scale if one is free, otherwise into the scale queue. -/
def placeAtScale (s : SimState) (truckId : ℕ) : SimState :=
  if s.W < (s.numScales : ℤ) then
    let t := setTruck { s with W := s.W + 1 } truckId .WEIGHING
    let weighTime := getRandomTime t.cumProbs.weighing (t.rand t.randIdx)
    addEvent { t with randIdx := t.randIdx + 1 } ⟨t.clock + weighTime, .EW, truckId⟩
  else
    setTruck { s with WQ := s.WQ + 1, weigherQueue := s.weigherQueue ++ [truckId] }
      truckId .IN_WQ

/-- The exact-match test selecting the problem-specific initial state:
`numTrucks === 6 && numLoaders === 2 && numScales === 1`. -/
def isProblemSpecific (s : SimState) : Bool :=
  s.numTrucks == 6 && s.numLoaders == 2 && s.numScales == 1

/-- The `Simulation` constructor: clock 0, empty FEL, zero counters, empty
wait lists, every truck `IDLE`, zero integrals, draw index 0. -/
def initialState (numTrucks numLoaders numScales : ℕ) (maxSimTime : ℚ)
    (cumProbs : CumProbs) (rand : ℕ → ℚ) : SimState :=
  { numTrucks := numTrucks
    numLoaders := numLoaders
    numScales := numScales
    maxSimTime := maxSimTime
    cumProbs := cumProbs
    clock := 0
    FEL := []
    LQ := 0
    L := 0
    WQ := 0
    W := 0
    loaderQueue := []
    weigherQueue := []
    trucks := List.replicate numTrucks .IDLE
    loaderBusyTime := 0
    scaleBusyTime := 0
    rand := rand
    randIdx := 0 }

/-- `Simulation.init`: in the problem-specific case trucks 1..5 are placed at
the loaders (overflowing into the loader queue) and truck 6 at the scale;
otherwise every truck schedules an `ALQ` arrival at time 0. -/
def init (s : SimState) : SimState :=
  if isProblemSpecific s then
    placeAtScale ([1, 2, 3, 4, 5].foldl placeAtLoader s) 6
  else
    (List.range s.numTrucks).foldl (fun t i => addEvent t ⟨0, .ALQ, i + 1⟩) s

/-- A run configuration: the numeric inputs, the validated cumulative tables
and the random stream. -/
structure Config where
  numTrucks : ℕ
  numLoaders : ℕ
  numScales : ℕ
  maxSimTime : ℚ
  cumProbs : CumProbs
  rand : ℕ → ℚ

/-- The state a run starts stepping from: the constructed simulation after
`init()`. -/
def Config.start (c : Config) : SimState :=
  init (initialState c.numTrucks c.numLoaders c.numScales c.maxSimTime c.cumProbs c.rand)

/-- The statistics-and-clock update at the top of the loop body: add
`L * timeDelta` and `W * timeDelta` for `timeDelta = event.time −
lastEventTime` using the counters in effect before the event's handler runs,
then advance the clock to the event time. -/
def accountAndAdvance (s : SimState) (e : Event) (last : ℚ) : SimState :=
  { s with
    loaderBusyTime := s.loaderBusyTime + (s.L : ℚ) * (e.time - last)
    scaleBusyTime := s.scaleBusyTime + (s.W : ℚ) * (e.time - last)
    clock := e.time }

/-- The `switch (event.type)` dispatch. -/
def dispatch (e : Event) (s : SimState) : SimState :=
  match e.kind with
  | .ALQ => handleALQ s e.truckId
  | .EL => handleEL s e.truckId
  | .EW => handleEW s e.truckId

/-- The main loop of `Simulation.run`, with fuel for termination (the source
loop need not terminate, e.g. with all-zero service times).  Returns the
state at loop exit, the final `lastEventTime`, and — as an observation
history — the list of event times actually processed.  Loop body: shift the
earliest event; if its time exceeds `maxSimTime`, clamp the clock to
`maxSimTime` and stop; otherwise account the elapsed interval with the
pre-event counters, advance the clock, and dispatch the handler. -/
def runLoop : ℕ → SimState → ℚ → Option (SimState × ℚ × List ℚ)
  | 0, _, _ => none
  | fuel + 1, s, last =>
    match s.FEL with
    | [] => some (s, last, [])
    | e :: rest =>
      if s.maxSimTime < e.time then
        some ({ s with FEL := rest, clock := s.maxSimTime }, last, [])
      else
        (runLoop fuel (dispatch e (accountAndAdvance { s with FEL := rest } e last)) e.time).map
          (fun r => (r.1, r.2.1, e.time :: r.2.2))

/-- The single post-loop statistics update of `Simulation.run`: add the
interval from `lastEventTime` to the final clock, skipped unless the interval
is positive. -/
def finalUpdate (s : SimState) (last : ℚ) : SimState :=
  if 0 < s.clock - last then
    { s with
      loaderBusyTime := s.loaderBusyTime + (s.L : ℚ) * (s.clock - last)
      scaleBusyTime := s.scaleBusyTime + (s.W : ℚ) * (s.clock - last) }
  else s

/-- `Simulation.run` up to the final state: initialization, the loop, then
exactly one final accumulator update. -/
def runSim (fuel : ℕ) (c : Config) : Option SimState :=
  (runLoop fuel c.start 0).map (fun r => finalUpdate r.1 r.2.1)

/-- `getFinalStats`: total time and the two utilization percentages, each
guarded to 0 when the corresponding available time is not positive. -/
def getFinalStats (s : SimState) : ℚ × ℚ × ℚ :=
  (s.clock,
   if 0 < (s.numLoaders : ℚ) * s.clock then
     s.loaderBusyTime / ((s.numLoaders : ℚ) * s.clock) * 100
   else 0,
   if 0 < (s.numScales : ℚ) * s.clock then
     s.scaleBusyTime / ((s.numScales : ℚ) * s.clock) * 100
   else 0)

/-- The statistics returned by `Simulation.run`. -/
def runStats (fuel : ℕ) (c : Config) : Option (ℚ × ℚ × ℚ) :=
  (runSim fuel c).map getFinalStats

/-- The sequence of event times processed by a run's main loop. -/
def runTrace (fuel : ℕ) (c : Config) : Option (List ℚ) :=
  (runLoop fuel c.start 0).map (fun r => r.2.2)

/-- Truck phases the spec counts as "in the system":
`{InLoaderQueue, Loading, InScaleQueue, Weighing, Traveling}`. -/
def isActive : TruckState → Bool
  | .IN_LQ => true
  | .LOADING => true
  | .IN_WQ => true
  | .WEIGHING => true
  | .TRAVELING => true
  | .IDLE => false

/-- Number of trucks in one of the five in-system phases. -/
def countActive (l : List TruckState) : ℕ :=
  l.countP isActive

/-- Number of trucks still `IDLE`. -/
def countIdle (l : List TruckState) : ℕ :=
  l.countP (fun t => !isActive t)

/-- All table times of a configuration's three cumulative tables are
non-negative (durations). -/
def TablesNonneg (cp : CumProbs) : Prop :=
  (∀ e ∈ cp.loading, 0 ≤ e.time) ∧ (∀ e ∈ cp.weighing, 0 ≤ e.time) ∧
    (∀ e ∈ cp.travel, 0 ≤ e.time)

/-- The states of a run: the initialized state, plus the result of processing
one in-horizon event exactly as the loop body does (the statistics interval
endpoint `last` is arbitrary; it does not influence anything but the
integrals). -/
inductive Reachable (c : Config) : SimState → Prop
  | init : Reachable c c.start
  | step (s : SimState) (e : Event) (rest : List Event) (last : ℚ) :
      Reachable c s → s.FEL = e :: rest → ¬ s.maxSimTime < e.time →
      Reachable c (dispatch e (accountAndAdvance { s with FEL := rest } e last))

/-! ## Concrete data used to exercise the definitions -/

/-- Single-outcome validated tables: loading always 5, weighing always 12,
travel always 40. -/
def cpUnit : CumProbs :=
  ⟨[⟨5, 1⟩], [⟨12, 1⟩], [⟨40, 1⟩]⟩

/-- One truck, one loader, one scale, horizon 100. -/
def cfgUnit : Config :=
  ⟨1, 1, 1, 100, cpUnit, fun _ => 1/2⟩

/-- One truck, one loader, one scale, horizon 0. -/
def cfgZero : Config :=
  ⟨1, 1, 1, 0, cpUnit, fun _ => 0⟩

/-- The problem-specific configuration: 6 trucks, 2 loaders, 1 scale. -/
def cfgSix : Config :=
  ⟨6, 2, 1, 60, cpUnit, fun _ => 1/2⟩

/-- The loading table of the repository's worked example. -/
def tblThree : List Entry :=
  [⟨5, 3/10⟩, ⟨10, 8/10⟩, ⟨15, 1⟩]

/-- The loading distribution of the worked example, as numeric pairs. -/
def distThree : List (ℚ × ℚ) :=
  [(5, 3/10), (10, 5/10), (15, 2/10)]

/-- The cumulative table built from `distThree`. -/
def tblThreeCum : List Entry :=
  [⟨5, 3/10⟩, ⟨10, 4/5⟩, ⟨15, 1⟩]

/-- A one-line distribution with a negative probability. -/
def pairsNeg : List (ℚ × ℚ) :=
  [(5, -1/2)]

/-- One truck with a negative horizon: the run stops before processing any
event. -/
def cfgNeg : Config :=
  ⟨1, 1, 1, -1, cpUnit, fun _ => 0⟩

/-- A start-of-run state with one pending arrival, used to instantiate
loop-step facts. -/
def sAcc : SimState :=
  { numTrucks := 1
    numLoaders := 1
    numScales := 1
    maxSimTime := 10
    cumProbs := cpUnit
    clock := 0
    FEL := [⟨2, .ALQ, 1⟩]
    LQ := 0
    L := 0
    WQ := 0
    W := 0
    loaderQueue := []
    weigherQueue := []
    trucks := [.IDLE]
    loaderBusyTime := 0
    scaleBusyTime := 0
    rand := fun _ => 1/2
    randIdx := 0 }

/-- Like `sAcc` but whose pending event lies beyond the horizon. -/
def sHor : SimState :=
  { sAcc with FEL := [⟨20, .EL, 1⟩] }

/-- Like `sAcc` with the clock already advanced to 7. -/
def sClock7 : SimState :=
  { sAcc with clock := 7 }

/-- A saturated-loader state with truck 2 waiting in the loader queue while
truck 1 finishes loading. -/
def sHand : SimState :=
  { numTrucks := 3
    numLoaders := 1
    numScales := 1
    maxSimTime := 100
    cumProbs := cpUnit
    clock := 4
    FEL := []
    LQ := 1
    L := 1
    WQ := 0
    W := 0
    loaderQueue := [2]
    weigherQueue := []
    trucks := [.LOADING, .IN_LQ, .TRAVELING]
    loaderBusyTime := 0
    scaleBusyTime := 0
    rand := fun _ => 1/2
    randIdx := 0 }

/-! ## Basic lemmas about the event list and the sampler -/

/-- Ordering of events by scheduled time. -/
def eventLE (a b : Event) : Prop :=
  a.time ≤ b.time

/-- Fields of the state a handler leaves unchanged. -/
def SameFrame (s t : SimState) : Prop :=
  t.numTrucks = s.numTrucks ∧ t.numLoaders = s.numLoaders ∧ t.numScales = s.numScales ∧
    t.maxSimTime = s.maxSimTime ∧ t.cumProbs = s.cumProbs ∧ t.clock = s.clock ∧
    t.loaderBusyTime = s.loaderBusyTime ∧ t.scaleBusyTime = s.scaleBusyTime ∧
    t.rand = s.rand

/-- A well-formed future event list as seen from time `b`: sorted by time,
with no event scheduled before `b`. -/
def FELok (b : ℚ) (l : List Event) : Prop :=
  l.Pairwise eventLE ∧ ∀ x ∈ l, b ≤ x.time

/-- The resource-state invariant of a run: the configuration fields are those
of `c`; busy counts never exceed capacity; a non-empty wait list means the
corresponding resource is saturated (work conservation); the `LQ`/`WQ`
counters mirror the wait-list lengths; the truck array keeps its length; and
in the problem-specific mode no truck is ever `IDLE`. -/
structure Inv (c : Config) (s : SimState) : Prop where
  hNT : s.numTrucks = c.numTrucks
  hNL : s.numLoaders = c.numLoaders
  hNS : s.numScales = c.numScales
  hL : s.L ≤ (s.numLoaders : ℤ)
  hW : s.W ≤ (s.numScales : ℤ)
  hLQne : s.loaderQueue ≠ [] → s.L = (s.numLoaders : ℤ)
  hWQne : s.weigherQueue ≠ [] → s.W = (s.numScales : ℤ)
  hLQlen : s.LQ = (s.loaderQueue.length : ℤ)
  hWQlen : s.WQ = (s.weigherQueue.length : ℤ)
  hTlen : s.trucks.length = c.numTrucks
  hIdle : c.numTrucks = 6 ∧ c.numLoaders = 2 ∧ c.numScales = 1 →
    ∀ t ∈ s.trucks, t ≠ TruckState.IDLE

/-- What the claim asserts of `getRandomTime` on a non-empty table: the
result is the `time` of an entry at some index `i` such that every earlier
entry fails the threshold test and either entry `i` passes it (the
first-match case) or `i` is the last index and no entry passes it (the
fallback case); in particular the result is one of the table's times. -/
def SampleSpec (table : List Entry) (r : ℚ) : Prop :=
  (∃ i, ∃ hi : i < table.length,
    getRandomTime table r = (table.get ⟨i, hi⟩).time ∧
    (∀ j (hj : j < table.length), j < i → ¬ r ≤ (table.get ⟨j, hj⟩).cum_prob) ∧
    (r ≤ (table.get ⟨i, hi⟩).cum_prob ∨
      (i = table.length - 1 ∧
        ∀ j (hj : j < table.length), ¬ r ≤ (table.get ⟨j, hj⟩).cum_prob))) ∧
  getRandomTime table r ∈ table.map Entry.time


theorem mem_insertEvent {e x : Event} {l : List Event} :
    x ∈ insertEvent e l ↔ x = e ∨ x ∈ l := by
  induction l with
  | nil => simp [insertEvent]
  | cons y ys ih =>
    by_cases h : y.time ≤ e.time
    · simp only [insertEvent, if_pos h, List.mem_cons, ih]
      tauto
    · simp only [insertEvent, if_neg h, List.mem_cons]

theorem pairwise_insertEvent {e : Event} {l : List Event}
    (h : l.Pairwise eventLE) : (insertEvent e l).Pairwise eventLE := by
  induction l with
  | nil => simp [insertEvent, eventLE]
  | cons y ys ih =>
    rw [List.pairwise_cons] at h
    by_cases hc : y.time ≤ e.time
    · rw [insertEvent, if_pos hc, List.pairwise_cons]
      refine ⟨?_, ih h.2⟩
      intro z hz
      rcases mem_insertEvent.mp hz with rfl | hz
      · exact hc
      · exact h.1 z hz
    · rw [insertEvent, if_neg hc, List.pairwise_cons]
      refine ⟨?_, List.pairwise_cons.mpr h⟩
      intro z hz
      rcases List.mem_cons.mp hz with rfl | hz
      · exact le_of_lt (lt_of_not_le hc)
      · exact le_trans (le_of_lt (lt_of_not_le hc)) (h.1 z hz)

theorem lb_insertEvent {e : Event} {l : List Event} {b : ℚ}
    (hl : ∀ x ∈ l, b ≤ x.time) (he : b ≤ e.time) :
    ∀ x ∈ insertEvent e l, b ≤ x.time := by
  intro x hx
  rcases mem_insertEvent.mp hx with rfl | hx
  · exact he
  · exact hl x hx

theorem getRandomTime_mem {table : List Entry} (h : table ≠ []) (r : ℚ) :
    getRandomTime table r ∈ table.map Entry.time := by
  unfold getRandomTime
  cases hf : table.find? (fun e => decide (r ≤ e.cum_prob)) with
  | some e =>
    exact List.mem_map_of_mem Entry.time (List.mem_of_find?_eq_some hf)
  | none =>
    simp only [List.getLast?_eq_getLast _ h, Option.map_some', Option.getD_some]
    exact List.mem_map_of_mem Entry.time (List.getLast_mem h)

theorem getRandomTime_nonneg {table : List Entry}
    (h : ∀ x ∈ table, 0 ≤ x.time) (r : ℚ) : 0 ≤ getRandomTime table r := by
  rcases eq_or_ne table [] with rfl | hne
  · simp [getRandomTime]
  · rcases List.mem_map.mp (getRandomTime_mem hne r) with ⟨e, he, hv⟩
    exact hv ▸ h e he

/-! ## Frame lemmas: fields the handlers never touch -/


theorem sameFrame_handleALQ (s : SimState) (tid : ℕ) :
    SameFrame s (handleALQ s tid) := by
  unfold SameFrame
  simp only [handleALQ, setTruck, addEvent]
  split <;> simp

theorem sameFrame_handleEL (s : SimState) (tid : ℕ) :
    SameFrame s (handleEL s tid) := by
  unfold SameFrame
  simp only [handleEL, setTruck, addEvent]
  split <;> split <;> (try split) <;> simp

theorem sameFrame_handleEW (s : SimState) (tid : ℕ) :
    SameFrame s (handleEW s tid) := by
  unfold SameFrame
  simp only [handleEW, setTruck, addEvent]
  split <;> (try split) <;> simp

/-! ## The future event list stays sorted and never holds past events -/


theorem FELok_insert {b : ℚ} {l : List Event} {e : Event}
    (h : FELok b l) (he : b ≤ e.time) : FELok b (insertEvent e l) :=
  ⟨pairwise_insertEvent h.1, lb_insertEvent h.2 he⟩

theorem le_add_draw {b : ℚ} {table : List Entry}
    (h : ∀ x ∈ table, 0 ≤ x.time) (r : ℚ) : b ≤ b + getRandomTime table r := by
  have := getRandomTime_nonneg h r
  linarith

/-- How `handleALQ` transforms the future event list. -/
theorem handleALQ_FEL (s : SimState) (tid : ℕ) :
    (handleALQ s tid).FEL =
      if s.L < (s.numLoaders : ℤ) then
        insertEvent
          ⟨s.clock + getRandomTime s.cumProbs.loading (s.rand s.randIdx), .EL, tid⟩ s.FEL
      else s.FEL := by
  simp only [handleALQ, setTruck, addEvent]
  split <;> simp

/-- How `handleEL` transforms the future event list: an `EW` insertion when
the truck is admitted to the scale, then an `EL` insertion when the loader
queue hands off. -/
theorem handleEL_FEL (s : SimState) (tid : ℕ) :
    (handleEL s tid).FEL =
      if s.W < (s.numScales : ℤ) then
        (if 0 < s.LQ then
          match s.loaderQueue with
          | [] =>
            insertEvent
              ⟨s.clock + getRandomTime s.cumProbs.weighing (s.rand s.randIdx), .EW, tid⟩ s.FEL
          | next :: _ =>
            insertEvent
              ⟨s.clock + getRandomTime s.cumProbs.loading (s.rand (s.randIdx + 1)), .EL, next⟩
              (insertEvent
                ⟨s.clock + getRandomTime s.cumProbs.weighing (s.rand s.randIdx), .EW, tid⟩ s.FEL)
        else
          insertEvent
            ⟨s.clock + getRandomTime s.cumProbs.weighing (s.rand s.randIdx), .EW, tid⟩ s.FEL)
      else
        (if 0 < s.LQ then
          match s.loaderQueue with
          | [] => s.FEL
          | next :: _ =>
            insertEvent
              ⟨s.clock + getRandomTime s.cumProbs.loading (s.rand s.randIdx), .EL, next⟩ s.FEL
        else s.FEL) := by
  simp only [handleEL, setTruck, addEvent]
  split <;> split <;> (try split) <;> simp_all

/-- How `handleEW` transforms the future event list: an unconditional `ALQ`
(travel) insertion, then an `EW` insertion when the scale queue hands off. -/
theorem handleEW_FEL (s : SimState) (tid : ℕ) :
    (handleEW s tid).FEL =
      (if 0 < s.WQ then
        match s.weigherQueue with
        | [] =>
          insertEvent
            ⟨s.clock + getRandomTime s.cumProbs.travel (s.rand s.randIdx), .ALQ, tid⟩ s.FEL
        | next :: _ =>
          insertEvent
            ⟨s.clock + getRandomTime s.cumProbs.weighing (s.rand (s.randIdx + 1)), .EW, next⟩
            (insertEvent
              ⟨s.clock + getRandomTime s.cumProbs.travel (s.rand s.randIdx), .ALQ, tid⟩ s.FEL)
      else
        insertEvent
          ⟨s.clock + getRandomTime s.cumProbs.travel (s.rand s.randIdx), .ALQ, tid⟩ s.FEL) := by
  simp only [handleEW, setTruck, addEvent]
  split <;> (try split) <;> simp_all

theorem felOk_handleALQ {s : SimState} (tid : ℕ) (hT : TablesNonneg s.cumProbs)
    (h : FELok s.clock s.FEL) : FELok s.clock (handleALQ s tid).FEL := by
  obtain ⟨hLo, hWe, hTr⟩ := hT
  rw [handleALQ_FEL]
  split
  · exact FELok_insert h (le_add_draw hLo _)
  · exact h

theorem felOk_handleEL {s : SimState} (tid : ℕ) (hT : TablesNonneg s.cumProbs)
    (h : FELok s.clock s.FEL) : FELok s.clock (handleEL s tid).FEL := by
  obtain ⟨hLo, hWe, hTr⟩ := hT
  rw [handleEL_FEL]
  by_cases hW : s.W < (s.numScales : ℤ)
  · rw [if_pos hW]
    by_cases hQ : 0 < s.LQ
    · rw [if_pos hQ]
      rcases s.loaderQueue with _ | ⟨next, rest⟩
      · exact FELok_insert h (le_add_draw hWe _)
      · exact FELok_insert (FELok_insert h (le_add_draw hWe _)) (le_add_draw hLo _)
    · rw [if_neg hQ]
      exact FELok_insert h (le_add_draw hWe _)
  · rw [if_neg hW]
    by_cases hQ : 0 < s.LQ
    · rw [if_pos hQ]
      rcases s.loaderQueue with _ | ⟨next, rest⟩
      · exact h
      · exact FELok_insert h (le_add_draw hLo _)
    · rw [if_neg hQ]
      exact h

theorem felOk_handleEW {s : SimState} (tid : ℕ) (hT : TablesNonneg s.cumProbs)
    (h : FELok s.clock s.FEL) : FELok s.clock (handleEW s tid).FEL := by
  obtain ⟨hLo, hWe, hTr⟩ := hT
  rw [handleEW_FEL]
  by_cases hQ : 0 < s.WQ
  · rw [if_pos hQ]
    rcases s.weigherQueue with _ | ⟨next, rest⟩
    · exact FELok_insert h (le_add_draw hTr _)
    · exact FELok_insert (FELok_insert h (le_add_draw hTr _)) (le_add_draw hWe _)
  · rw [if_neg hQ]
    exact FELok_insert h (le_add_draw hTr _)

/-! ## How the handlers transform counters, queues and truck phases -/

theorem handleALQ_state (s : SimState) (tid : ℕ) :
    (handleALQ s tid).L = (if s.L < (s.numLoaders : ℤ) then s.L + 1 else s.L) ∧
    (handleALQ s tid).W = s.W ∧
    (handleALQ s tid).LQ = (if s.L < (s.numLoaders : ℤ) then s.LQ else s.LQ + 1) ∧
    (handleALQ s tid).WQ = s.WQ ∧
    (handleALQ s tid).loaderQueue =
      (if s.L < (s.numLoaders : ℤ) then s.loaderQueue else s.loaderQueue ++ [tid]) ∧
    (handleALQ s tid).weigherQueue = s.weigherQueue ∧
    (handleALQ s tid).trucks =
      (if s.L < (s.numLoaders : ℤ) then
        (s.trucks.set (tid - 1) .IN_LQ).set (tid - 1) .LOADING
      else s.trucks.set (tid - 1) .IN_LQ) := by
  simp only [handleALQ, setTruck, addEvent]
  split <;> simp_all

theorem handleEL_state (s : SimState) (tid : ℕ) :
    (handleEL s tid).L =
      (if 0 < s.LQ then
        match s.loaderQueue with
        | [] => s.L - 1
        | _ :: _ => s.L
      else s.L - 1) ∧
    (handleEL s tid).W = (if s.W < (s.numScales : ℤ) then s.W + 1 else s.W) ∧
    (handleEL s tid).LQ =
      (if 0 < s.LQ then
        match s.loaderQueue with
        | [] => s.LQ
        | _ :: _ => s.LQ - 1
      else s.LQ) ∧
    (handleEL s tid).WQ = (if s.W < (s.numScales : ℤ) then s.WQ else s.WQ + 1) ∧
    (handleEL s tid).loaderQueue =
      (if 0 < s.LQ then
        match s.loaderQueue with
        | [] => s.loaderQueue
        | _ :: rest => rest
      else s.loaderQueue) ∧
    (handleEL s tid).weigherQueue =
      (if s.W < (s.numScales : ℤ) then s.weigherQueue else s.weigherQueue ++ [tid]) ∧
    (handleEL s tid).trucks =
      (let base :=
        if s.W < (s.numScales : ℤ) then
          (s.trucks.set (tid - 1) .IN_WQ).set (tid - 1) .WEIGHING
        else s.trucks.set (tid - 1) .IN_WQ
      if 0 < s.LQ then
        match s.loaderQueue with
        | [] => base
        | next :: _ => base.set (next - 1) .LOADING
      else base) := by
  simp only [handleEL, setTruck, addEvent]
  split <;> split <;> (try split) <;> simp_all

theorem handleEW_state (s : SimState) (tid : ℕ) :
    (handleEW s tid).L = s.L ∧
    (handleEW s tid).W =
      (if 0 < s.WQ then
        match s.weigherQueue with
        | [] => s.W - 1
        | _ :: _ => s.W
      else s.W - 1) ∧
    (handleEW s tid).LQ = s.LQ ∧
    (handleEW s tid).WQ =
      (if 0 < s.WQ then
        match s.weigherQueue with
        | [] => s.WQ
        | _ :: _ => s.WQ - 1
      else s.WQ) ∧
    (handleEW s tid).loaderQueue = s.loaderQueue ∧
    (handleEW s tid).weigherQueue =
      (if 0 < s.WQ then
        match s.weigherQueue with
        | [] => s.weigherQueue
        | _ :: rest => rest
      else s.weigherQueue) ∧
    (handleEW s tid).trucks =
      (if 0 < s.WQ then
        match s.weigherQueue with
        | [] => s.trucks.set (tid - 1) .TRAVELING
        | next :: _ => (s.trucks.set (tid - 1) .TRAVELING).set (next - 1) .WEIGHING
      else s.trucks.set (tid - 1) .TRAVELING) := by
  simp only [handleEW, setTruck, addEvent]
  split <;> (try split) <;> simp_all

theorem sameFrame_dispatch (s : SimState) (e : Event) :
    SameFrame s (dispatch e s) := by
  unfold dispatch
  cases e.kind
  · exact sameFrame_handleALQ s e.truckId
  · exact sameFrame_handleEL s e.truckId
  · exact sameFrame_handleEW s e.truckId

/-! ## The resource/truck invariant -/


theorem set_ne_idle {l : List TruckState} {v : TruckState} (i : ℕ)
    (h : ∀ t ∈ l, t ≠ TruckState.IDLE) (hv : v ≠ TruckState.IDLE) :
    ∀ t ∈ l.set i v, t ≠ TruckState.IDLE := by
  intro t ht
  rcases List.mem_or_eq_of_mem_set ht with hm | rfl
  · exact h t hm
  · exact hv

theorem inv_handleALQ {c : Config} {s : SimState} (tid : ℕ) (h : Inv c s) :
    Inv c (handleALQ s tid) := by
  obtain ⟨e1, e2, e3, e4, e5, e6, e7⟩ := handleALQ_state s tid
  obtain ⟨f1, f2, f3, f4, f5, f6, f7, f8, f9⟩ :=
    sameFrame_handleALQ s tid
  obtain ⟨hNT, hNL, hNS, hL, hW, hLQne, hWQne, hLQlen, hWQlen, hTlen, hIdle⟩ := h
  by_cases hc : s.L < (s.numLoaders : ℤ)
  · rw [if_pos hc] at e1 e3 e5 e7
    refine ⟨f1 ▸ hNT, f2 ▸ hNL, f3 ▸ hNS, ?_, ?_, ?_, ?_, ?_, ?_, ?_, ?_⟩
    · rw [e1, f2]; omega
    · rw [e2, f3]; exact hW
    · intro hne
      rw [e5] at hne
      exact absurd (hLQne hne) (by omega)
    · intro hne
      rw [e6] at hne
      rw [e2, f3]
      exact hWQne hne
    · rw [e3, e5, hLQlen]
    · rw [e4, e6, hWQlen]
    · rw [e7]
      simpa using hTlen
    · intro hps
      rw [e7]
      exact set_ne_idle _ (set_ne_idle _ (hIdle hps) (by simp)) (by simp)
  · rw [if_neg hc] at e1 e3 e5 e7
    refine ⟨f1 ▸ hNT, f2 ▸ hNL, f3 ▸ hNS, ?_, ?_, ?_, ?_, ?_, ?_, ?_, ?_⟩
    · rw [e1, f2]; exact hL
    · rw [e2, f3]; exact hW
    · intro _
      rw [e1, f2]; omega
    · intro hne
      rw [e6] at hne
      rw [e2, f3]
      exact hWQne hne
    · rw [e3, e5, hLQlen]
      push_cast [List.length_append]
      simp
    · rw [e4, e6, hWQlen]
    · rw [e7]
      simpa using hTlen
    · intro hps
      rw [e7]
      exact set_ne_idle _ (hIdle hps) (by simp)

theorem inv_handleEL {c : Config} {s : SimState} (tid : ℕ) (h : Inv c s) :
    Inv c (handleEL s tid) := by
  obtain ⟨e1, e2, e3, e4, e5, e6, e7⟩ := handleEL_state s tid
  obtain ⟨f1, f2, f3, f4, f5, f6, f7, f8, f9⟩ := sameFrame_handleEL s tid
  obtain ⟨hNT, hNL, hNS, hL, hW, hLQne, hWQne, hLQlen, hWQlen, hTlen, hIdle⟩ := h
  refine ⟨f1 ▸ hNT, f2 ▸ hNL, f3 ▸ hNS, ?gL, ?gW, ?gLQne, ?gWQne, ?gLQlen, ?gWQlen,
    ?gTlen, ?gIdle⟩
  case gL =>
    rw [f2]
    by_cases hQ : 0 < s.LQ
    · obtain ⟨next, rest, hq⟩ :=
        List.exists_cons_of_ne_nil (s.loaderQueue.ne_nil_of_length_pos (by omega))
      rw [if_pos hQ, hq] at e1
      simp only [] at e1
      rw [e1]
      exact hL
    · rw [if_neg hQ] at e1
      rw [e1]
      omega
  case gW =>
    rw [f3, e2]
    by_cases hWc : s.W < (s.numScales : ℤ)
    · rw [if_pos hWc]; omega
    · rw [if_neg hWc]; exact hW
  case gLQne =>
    rw [f2, e5]
    by_cases hQ : 0 < s.LQ
    · obtain ⟨next, rest, hq⟩ :=
        List.exists_cons_of_ne_nil (s.loaderQueue.ne_nil_of_length_pos (by omega))
      rw [if_pos hQ, hq]
      simp only []
      rw [if_pos hQ, hq] at e1
      simp only [] at e1
      intro _
      rw [e1]
      exact hLQne (by rw [hq]; simp)
    · rw [if_neg hQ]
      have hq : s.loaderQueue = [] := by
        rcases hqe : s.loaderQueue with _ | ⟨a, b⟩
        · rfl
        · rw [hqe] at hLQlen; simp at hLQlen; omega
      rw [hq]
      intro hcon
      exact absurd rfl hcon
  case gWQne =>
    rw [f3, e2, e6]
    by_cases hWc : s.W < (s.numScales : ℤ)
    · rw [if_pos hWc, if_pos hWc]
      intro hne
      exact absurd (hWQne hne) (by omega)
    · rw [if_neg hWc, if_neg hWc]
      intro _
      omega
  case gLQlen =>
    rw [e3, e5]
    by_cases hQ : 0 < s.LQ
    · obtain ⟨next, rest, hq⟩ :=
        List.exists_cons_of_ne_nil (s.loaderQueue.ne_nil_of_length_pos (by omega))
      rw [if_pos hQ, if_pos hQ, hq]
      simp only []
      rw [hLQlen, hq]
      simp
    · rw [if_neg hQ, if_neg hQ]
      exact hLQlen
  case gWQlen =>
    rw [e4, e6]
    by_cases hWc : s.W < (s.numScales : ℤ)
    · rw [if_pos hWc, if_pos hWc]
      exact hWQlen
    · rw [if_neg hWc, if_neg hWc, hWQlen]
      push_cast [List.length_append]
      simp
  case gTlen =>
    rw [e7]
    by_cases hWc : s.W < (s.numScales : ℤ) <;>
      [rw [if_pos hWc]; rw [if_neg hWc]] <;>
      by_cases hQ : 0 < s.LQ <;>
      [rw [if_pos hQ]; rw [if_neg hQ]; rw [if_pos hQ]; rw [if_neg hQ]] <;>
      (try rcases s.loaderQueue with _ | ⟨a, b⟩) <;>
      simpa using hTlen
  case gIdle =>
    intro hps
    rw [e7]
    by_cases hWc : s.W < (s.numScales : ℤ) <;>
      [rw [if_pos hWc]; rw [if_neg hWc]] <;>
      by_cases hQ : 0 < s.LQ <;>
      [rw [if_pos hQ]; rw [if_neg hQ]; rw [if_pos hQ]; rw [if_neg hQ]] <;>
      (try rcases s.loaderQueue with _ | ⟨a, b⟩) <;>
      first
        | exact set_ne_idle _ (set_ne_idle _ (set_ne_idle _ (hIdle hps) (by simp)) (by simp))
            (by simp)
        | exact set_ne_idle _ (set_ne_idle _ (hIdle hps) (by simp)) (by simp)
        | exact set_ne_idle _ (hIdle hps) (by simp)

theorem inv_handleEW {c : Config} {s : SimState} (tid : ℕ) (h : Inv c s) :
    Inv c (handleEW s tid) := by
  obtain ⟨e1, e2, e3, e4, e5, e6, e7⟩ := handleEW_state s tid
  obtain ⟨f1, f2, f3, f4, f5, f6, f7, f8, f9⟩ := sameFrame_handleEW s tid
  obtain ⟨hNT, hNL, hNS, hL, hW, hLQne, hWQne, hLQlen, hWQlen, hTlen, hIdle⟩ := h
  refine ⟨f1 ▸ hNT, f2 ▸ hNL, f3 ▸ hNS, ?gL, ?gW, ?gLQne, ?gWQne, ?gLQlen, ?gWQlen,
    ?gTlen, ?gIdle⟩
  case gL =>
    rw [f2, e1]
    exact hL
  case gW =>
    rw [f3, e2]
    by_cases hQ : 0 < s.WQ
    · obtain ⟨next, rest, hq⟩ :=
        List.exists_cons_of_ne_nil (s.weigherQueue.ne_nil_of_length_pos (by omega))
      rw [if_pos hQ, hq]
      exact hW
    · rw [if_neg hQ]
      omega
  case gLQne =>
    rw [f2, e1, e5]
    exact hLQne
  case gWQne =>
    rw [f3, e2, e6]
    by_cases hQ : 0 < s.WQ
    · obtain ⟨next, rest, hq⟩ :=
        List.exists_cons_of_ne_nil (s.weigherQueue.ne_nil_of_length_pos (by omega))
      rw [if_pos hQ, if_pos hQ, hq]
      intro _
      exact hWQne (by rw [hq]; simp)
    · rw [if_neg hQ, if_neg hQ]
      have hq : s.weigherQueue = [] := by
        rcases hqe : s.weigherQueue with _ | ⟨a, b⟩
        · rfl
        · rw [hqe] at hWQlen; simp at hWQlen; omega
      rw [hq]
      intro hcon
      exact absurd rfl hcon
  case gLQlen =>
    rw [e3, e5]
    exact hLQlen
  case gWQlen =>
    rw [e4, e6]
    by_cases hQ : 0 < s.WQ
    · obtain ⟨next, rest, hq⟩ :=
        List.exists_cons_of_ne_nil (s.weigherQueue.ne_nil_of_length_pos (by omega))
      rw [if_pos hQ, if_pos hQ, hq]
      simp only []
      rw [hWQlen, hq]
      simp
    · rw [if_neg hQ, if_neg hQ]
      exact hWQlen
  case gTlen =>
    rw [e7]
    by_cases hQ : 0 < s.WQ <;>
      [rw [if_pos hQ]; rw [if_neg hQ]] <;>
      (try rcases s.weigherQueue with _ | ⟨a, b⟩) <;>
      simpa using hTlen
  case gIdle =>
    intro hps
    rw [e7]
    by_cases hQ : 0 < s.WQ <;>
      [rw [if_pos hQ]; rw [if_neg hQ]] <;>
      (try rcases s.weigherQueue with _ | ⟨a, b⟩) <;>
      first
        | exact set_ne_idle _ (set_ne_idle _ (hIdle hps) (by simp)) (by simp)
        | exact set_ne_idle _ (hIdle hps) (by simp)

/-- The accounting-and-clock-advance step and changing the event list leave
every `Inv` field untouched. -/
theorem inv_accountAndAdvance {c : Config} {s : SimState} (e : Event)
    (rest : List Event) (last : ℚ) (h : Inv c s) :
    Inv c (accountAndAdvance { s with FEL := rest } e last) := by
  obtain ⟨hNT, hNL, hNS, hL, hW, hLQne, hWQne, hLQlen, hWQlen, hTlen, hIdle⟩ := h
  exact ⟨hNT, hNL, hNS, hL, hW, hLQne, hWQne, hLQlen, hWQlen, hTlen, hIdle⟩

theorem inv_dispatch {c : Config} {s : SimState} (e : Event) (h : Inv c s) :
    Inv c (dispatch e s) := by
  unfold dispatch
  cases e.kind
  · exact inv_handleALQ e.truckId h
  · exact inv_handleEL e.truckId h
  · exact inv_handleEW e.truckId h

/-! ## The two initialization modes -/

/-- Scheduling the initial `ALQ` arrivals only fills the future event list:
all other fields keep their initial values. -/
theorem foldl_addEvent_eq (s : SimState) (l : List ℕ) :
    ∃ fel, (l.foldl (fun t i => addEvent t ⟨0, .ALQ, i + 1⟩) s) = { s with FEL := fel } := by
  induction l generalizing s with
  | nil => exact ⟨s.FEL, rfl⟩
  | cons i l ih =>
    obtain ⟨fel, hfel⟩ := ih (addEvent s ⟨0, .ALQ, i + 1⟩)
    exact ⟨fel, by rw [List.foldl_cons, hfel]; rfl⟩

/-- In the general mode the start state is the constructed state with the
`numTrucks` arrival events and nothing else changed. -/
theorem start_general (c : Config)
    (h : ¬(c.numTrucks = 6 ∧ c.numLoaders = 2 ∧ c.numScales = 1)) :
    ∃ fel, c.start =
      { initialState c.numTrucks c.numLoaders c.numScales c.maxSimTime c.cumProbs c.rand with
        FEL := fel } := by
  have hps : ¬(isProblemSpecific
      (initialState c.numTrucks c.numLoaders c.numScales c.maxSimTime c.cumProbs c.rand)
        = true) := by
    simp only [isProblemSpecific, initialState, Bool.and_eq_true, beq_iff_eq]
    exact fun hcon => h ⟨hcon.1.1, hcon.1.2, hcon.2⟩
  rw [Config.start, init, if_neg hps]
  exact foldl_addEvent_eq _ _

theorem placeAtLoader_numTrucks (s : SimState) (tid : ℕ) :
    (placeAtLoader s tid).numTrucks = s.numTrucks := by
  simp only [placeAtLoader, setTruck, addEvent]
  split <;> simp_all

theorem placeAtLoader_numLoaders (s : SimState) (tid : ℕ) :
    (placeAtLoader s tid).numLoaders = s.numLoaders := by
  simp only [placeAtLoader, setTruck, addEvent]
  split <;> simp_all

theorem placeAtLoader_numScales (s : SimState) (tid : ℕ) :
    (placeAtLoader s tid).numScales = s.numScales := by
  simp only [placeAtLoader, setTruck, addEvent]
  split <;> simp_all

theorem placeAtLoader_maxSimTime (s : SimState) (tid : ℕ) :
    (placeAtLoader s tid).maxSimTime = s.maxSimTime := by
  simp only [placeAtLoader, setTruck, addEvent]
  split <;> simp_all

theorem placeAtLoader_cumProbs (s : SimState) (tid : ℕ) :
    (placeAtLoader s tid).cumProbs = s.cumProbs := by
  simp only [placeAtLoader, setTruck, addEvent]
  split <;> simp_all

theorem placeAtLoader_clock (s : SimState) (tid : ℕ) :
    (placeAtLoader s tid).clock = s.clock := by
  simp only [placeAtLoader, setTruck, addEvent]
  split <;> simp_all

theorem placeAtLoader_L (s : SimState) (tid : ℕ) :
    (placeAtLoader s tid).L = (if s.L < (s.numLoaders : ℤ) then s.L + 1 else s.L) := by
  simp only [placeAtLoader, setTruck, addEvent]
  split <;> simp_all

theorem placeAtLoader_W (s : SimState) (tid : ℕ) :
    (placeAtLoader s tid).W = s.W := by
  simp only [placeAtLoader, setTruck, addEvent]
  split <;> simp_all

theorem placeAtLoader_LQ (s : SimState) (tid : ℕ) :
    (placeAtLoader s tid).LQ = (if s.L < (s.numLoaders : ℤ) then s.LQ else s.LQ + 1) := by
  simp only [placeAtLoader, setTruck, addEvent]
  split <;> simp_all

theorem placeAtLoader_WQ (s : SimState) (tid : ℕ) :
    (placeAtLoader s tid).WQ = s.WQ := by
  simp only [placeAtLoader, setTruck, addEvent]
  split <;> simp_all

theorem placeAtLoader_loaderQueue (s : SimState) (tid : ℕ) :
    (placeAtLoader s tid).loaderQueue = (if s.L < (s.numLoaders : ℤ) then s.loaderQueue else s.loaderQueue ++ [tid]) := by
  simp only [placeAtLoader, setTruck, addEvent]
  split <;> simp_all

theorem placeAtLoader_weigherQueue (s : SimState) (tid : ℕ) :
    (placeAtLoader s tid).weigherQueue = s.weigherQueue := by
  simp only [placeAtLoader, setTruck, addEvent]
  split <;> simp_all

theorem placeAtLoader_trucks (s : SimState) (tid : ℕ) :
    (placeAtLoader s tid).trucks = (if s.L < (s.numLoaders : ℤ) then s.trucks.set (tid - 1) .LOADING else s.trucks.set (tid - 1) .IN_LQ) := by
  simp only [placeAtLoader, setTruck, addEvent]
  split <;> simp_all

theorem placeAtScale_numTrucks (s : SimState) (tid : ℕ) :
    (placeAtScale s tid).numTrucks = s.numTrucks := by
  simp only [placeAtScale, setTruck, addEvent]
  split <;> simp_all

theorem placeAtScale_numLoaders (s : SimState) (tid : ℕ) :
    (placeAtScale s tid).numLoaders = s.numLoaders := by
  simp only [placeAtScale, setTruck, addEvent]
  split <;> simp_all

theorem placeAtScale_numScales (s : SimState) (tid : ℕ) :
    (placeAtScale s tid).numScales = s.numScales := by
  simp only [placeAtScale, setTruck, addEvent]
  split <;> simp_all

theorem placeAtScale_maxSimTime (s : SimState) (tid : ℕ) :
    (placeAtScale s tid).maxSimTime = s.maxSimTime := by
  simp only [placeAtScale, setTruck, addEvent]
  split <;> simp_all

theorem placeAtScale_cumProbs (s : SimState) (tid : ℕ) :
    (placeAtScale s tid).cumProbs = s.cumProbs := by
  simp only [placeAtScale, setTruck, addEvent]
  split <;> simp_all

theorem placeAtScale_clock (s : SimState) (tid : ℕ) :
    (placeAtScale s tid).clock = s.clock := by
  simp only [placeAtScale, setTruck, addEvent]
  split <;> simp_all

theorem placeAtScale_L (s : SimState) (tid : ℕ) :
    (placeAtScale s tid).L = s.L := by
  simp only [placeAtScale, setTruck, addEvent]
  split <;> simp_all

theorem placeAtScale_W (s : SimState) (tid : ℕ) :
    (placeAtScale s tid).W = (if s.W < (s.numScales : ℤ) then s.W + 1 else s.W) := by
  simp only [placeAtScale, setTruck, addEvent]
  split <;> simp_all

theorem placeAtScale_LQ (s : SimState) (tid : ℕ) :
    (placeAtScale s tid).LQ = s.LQ := by
  simp only [placeAtScale, setTruck, addEvent]
  split <;> simp_all

theorem placeAtScale_WQ (s : SimState) (tid : ℕ) :
    (placeAtScale s tid).WQ = (if s.W < (s.numScales : ℤ) then s.WQ else s.WQ + 1) := by
  simp only [placeAtScale, setTruck, addEvent]
  split <;> simp_all

theorem placeAtScale_loaderQueue (s : SimState) (tid : ℕ) :
    (placeAtScale s tid).loaderQueue = s.loaderQueue := by
  simp only [placeAtScale, setTruck, addEvent]
  split <;> simp_all

theorem placeAtScale_weigherQueue (s : SimState) (tid : ℕ) :
    (placeAtScale s tid).weigherQueue = (if s.W < (s.numScales : ℤ) then s.weigherQueue else s.weigherQueue ++ [tid]) := by
  simp only [placeAtScale, setTruck, addEvent]
  split <;> simp_all

theorem placeAtScale_trucks (s : SimState) (tid : ℕ) :
    (placeAtScale s tid).trucks = (if s.W < (s.numScales : ℤ) then s.trucks.set (tid - 1) .WEIGHING else s.trucks.set (tid - 1) .IN_WQ) := by
  simp only [placeAtScale, setTruck, addEvent]
  split <;> simp_all

set_option maxHeartbeats 1000000 in
/-- In the problem-specific mode (6 trucks, 2 loaders, 1 scale) the start
state has trucks 1 and 2 loading, trucks 3, 4, 5 in the loader queue and
truck 6 weighing. -/
theorem start_specific (mst : ℚ) (cp : CumProbs) (rnd : ℕ → ℚ) :
    ((Config.mk 6 2 1 mst cp rnd).start).numTrucks = 6 ∧
    ((Config.mk 6 2 1 mst cp rnd).start).numLoaders = 2 ∧
    ((Config.mk 6 2 1 mst cp rnd).start).numScales = 1 ∧
    ((Config.mk 6 2 1 mst cp rnd).start).L = 2 ∧
    ((Config.mk 6 2 1 mst cp rnd).start).W = 1 ∧
    ((Config.mk 6 2 1 mst cp rnd).start).LQ = 3 ∧
    ((Config.mk 6 2 1 mst cp rnd).start).WQ = 0 ∧
    ((Config.mk 6 2 1 mst cp rnd).start).loaderQueue = [3, 4, 5] ∧
    ((Config.mk 6 2 1 mst cp rnd).start).weigherQueue = [] ∧
    ((Config.mk 6 2 1 mst cp rnd).start).trucks =
      [.LOADING, .LOADING, .IN_LQ, .IN_LQ, .IN_LQ, .WEIGHING] ∧
    ((Config.mk 6 2 1 mst cp rnd).start).clock = 0 ∧
    ((Config.mk 6 2 1 mst cp rnd).start).maxSimTime = mst ∧
    ((Config.mk 6 2 1 mst cp rnd).start).cumProbs = cp := by
  have hps : isProblemSpecific (initialState 6 2 1 mst cp rnd) = true := by
    simp [isProblemSpecific, initialState]
  rw [Config.start]
  simp only [init]
  rw [if_pos hps]
  norm_num [List.foldl_cons, List.foldl_nil, initialState,
    placeAtLoader_numTrucks, placeAtLoader_numLoaders, placeAtLoader_numScales,
    placeAtLoader_maxSimTime, placeAtLoader_cumProbs, placeAtLoader_clock,
    placeAtLoader_L, placeAtLoader_W, placeAtLoader_LQ, placeAtLoader_WQ,
    placeAtLoader_loaderQueue, placeAtLoader_weigherQueue, placeAtLoader_trucks,
    placeAtScale_numTrucks, placeAtScale_numLoaders, placeAtScale_numScales,
    placeAtScale_maxSimTime, placeAtScale_cumProbs, placeAtScale_clock,
    placeAtScale_L, placeAtScale_W, placeAtScale_LQ, placeAtScale_WQ,
    placeAtScale_loaderQueue, placeAtScale_weigherQueue, placeAtScale_trucks,
    List.replicate, List.set]

/-- The invariant holds at the start state of every configuration. -/
theorem inv_start (c : Config) : Inv c c.start := by
  by_cases hps : c.numTrucks = 6 ∧ c.numLoaders = 2 ∧ c.numScales = 1
  · obtain ⟨h6, h2, h1⟩ := hps
    have hc : c = Config.mk 6 2 1 c.maxSimTime c.cumProbs c.rand := by
      obtain ⟨a, b, d, e, f, g⟩ := c
      simp_all
    rw [hc]
    obtain ⟨p1, p2, p3, p4, p5, p6, p7, p8, p9, p10, p11, p12, p13⟩ :=
      start_specific c.maxSimTime c.cumProbs c.rand
    refine ⟨?_, ?_, ?_, ?_, ?_, ?_, ?_, ?_, ?_, ?_, ?_⟩
    · rw [p1]
    · rw [p2]
    · rw [p3]
    · rw [p4, p2]; norm_num
    · rw [p5, p3]; norm_num
    · intro _; rw [p4, p2]; norm_num
    · intro _; rw [p5, p3]; norm_num
    · rw [p6, p8]; norm_num
    · rw [p7, p9]; norm_num
    · rw [p10]; norm_num
    · intro _
      rw [p10]
      decide
  · obtain ⟨fel, hfel⟩ := start_general c hps
    rw [hfel]
    refine ⟨rfl, rfl, rfl, ?_, ?_, ?_, ?_, ?_, ?_, ?_, ?_⟩ <;>
      simp [initialState]
    intro h6 h2 h1
    exact absurd ⟨h6, h2, h1⟩ hps

/-- Every reachable state of a run satisfies the invariant. -/
theorem reachable_inv {c : Config} {s : SimState} (h : Reachable c s) : Inv c s := by
  induction h with
  | init => exact inv_start c
  | step s e rest last _ hfel hhor ih =>
    exact inv_dispatch e (inv_accountAndAdvance e rest last ih)

/-! ## The future event list at the start state -/

theorem placeAtLoader_FEL (s : SimState) (tid : ℕ) :
    (placeAtLoader s tid).FEL =
      if s.L < (s.numLoaders : ℤ) then
        insertEvent
          ⟨s.clock + getRandomTime s.cumProbs.loading (s.rand s.randIdx), .EL, tid⟩ s.FEL
      else s.FEL := by
  simp only [placeAtLoader, setTruck, addEvent]
  split <;> simp_all

theorem placeAtScale_FEL (s : SimState) (tid : ℕ) :
    (placeAtScale s tid).FEL =
      if s.W < (s.numScales : ℤ) then
        insertEvent
          ⟨s.clock + getRandomTime s.cumProbs.weighing (s.rand s.randIdx), .EW, tid⟩ s.FEL
      else s.FEL := by
  simp only [placeAtScale, setTruck, addEvent]
  split <;> simp_all

theorem felOk_placeAtLoader {s : SimState} (tid : ℕ) (hT : TablesNonneg s.cumProbs)
    (h : FELok s.clock s.FEL) : FELok s.clock (placeAtLoader s tid).FEL := by
  rw [placeAtLoader_FEL]
  split
  · exact FELok_insert h (le_add_draw hT.1 _)
  · exact h

theorem felOk_placeAtScale {s : SimState} (tid : ℕ) (hT : TablesNonneg s.cumProbs)
    (h : FELok s.clock s.FEL) : FELok s.clock (placeAtScale s tid).FEL := by
  rw [placeAtScale_FEL]
  split
  · exact FELok_insert h (le_add_draw hT.2.1 _)
  · exact h

theorem foldl_placeAtLoader_felOk (l : List ℕ) (s : SimState)
    (hT : TablesNonneg s.cumProbs) (h : FELok s.clock s.FEL) :
    FELok s.clock ((l.foldl placeAtLoader s)).FEL ∧
      (l.foldl placeAtLoader s).clock = s.clock ∧
      (l.foldl placeAtLoader s).cumProbs = s.cumProbs ∧
      (l.foldl placeAtLoader s).W = s.W ∧
      (l.foldl placeAtLoader s).numScales = s.numScales := by
  induction l generalizing s with
  | nil => exact ⟨h, rfl, rfl, rfl, rfl⟩
  | cons i l ih =>
    rw [List.foldl_cons]
    have hT1 : TablesNonneg (placeAtLoader s i).cumProbs := by
      rw [placeAtLoader_cumProbs]; exact hT
    have h1 : FELok (placeAtLoader s i).clock (placeAtLoader s i).FEL := by
      rw [placeAtLoader_clock]
      exact felOk_placeAtLoader i hT h
    obtain ⟨q1, q2, q3, q4, q5⟩ := ih (placeAtLoader s i) hT1 h1
    rw [placeAtLoader_clock] at q1 q2
    rw [placeAtLoader_cumProbs] at q3
    rw [placeAtLoader_W] at q4
    rw [placeAtLoader_numScales] at q5
    exact ⟨q1, q2, q3, q4, q5⟩

theorem foldl_addEvent_felOk (l : List ℕ) (s : SimState) (hclk : s.clock = 0)
    (h : FELok 0 s.FEL) :
    FELok 0 ((l.foldl (fun t i => addEvent t ⟨0, .ALQ, i + 1⟩) s)).FEL := by
  induction l generalizing s with
  | nil => exact h
  | cons i l ih =>
    rw [List.foldl_cons]
    exact ih (addEvent s ⟨0, .ALQ, i + 1⟩) hclk (FELok_insert h (le_refl 0))

/-- At the start state the clock is 0 and the future event list is sorted
with no event in the past. -/
theorem start_felOk (c : Config) (hT : TablesNonneg c.cumProbs) :
    FELok 0 (c.start).FEL ∧ (c.start).clock = 0 := by
  by_cases hps : c.numTrucks = 6 ∧ c.numLoaders = 2 ∧ c.numScales = 1
  · obtain ⟨h6, h2, h1⟩ := hps
    have hc : c = Config.mk 6 2 1 c.maxSimTime c.cumProbs c.rand := by
      obtain ⟨a, b, d, e, f, g⟩ := c
      simp_all
    rw [hc]
    rw [Config.start]
    simp only [init]
    rw [if_pos (by simp [isProblemSpecific, initialState])]
    have hbase : FELok (initialState 6 2 1 c.maxSimTime c.cumProbs c.rand).clock
        (initialState 6 2 1 c.maxSimTime c.cumProbs c.rand).FEL := by
      simp [initialState, FELok]
    obtain ⟨q1, q2, q3, q4, q5⟩ :=
      foldl_placeAtLoader_felOk [1, 2, 3, 4, 5]
        (initialState 6 2 1 c.maxSimTime c.cumProbs c.rand) hT hbase
    have hT2 : TablesNonneg ([1, 2, 3, 4, 5].foldl placeAtLoader
        (initialState 6 2 1 c.maxSimTime c.cumProbs c.rand)).cumProbs := by
      rw [q3]; exact hT
    have hclk0 : (initialState 6 2 1 c.maxSimTime c.cumProbs c.rand).clock = 0 := rfl
    constructor
    · rw [placeAtScale_FEL]
      rw [hclk0] at q1
      rw [q2, hclk0]
      split
    -- a draw from a non-negative table keeps new events at or after time 0
      · have hWe' : ∀ x ∈ ([1, 2, 3, 4, 5].foldl placeAtLoader
            (initialState 6 2 1 c.maxSimTime c.cumProbs c.rand)).cumProbs.weighing,
            0 ≤ x.time := by
          rw [q3]; exact hT.2.1
        have hnn := getRandomTime_nonneg hWe'
          (([1, 2, 3, 4, 5].foldl placeAtLoader
            (initialState 6 2 1 c.maxSimTime c.cumProbs c.rand)).rand
            (([1, 2, 3, 4, 5].foldl placeAtLoader
              (initialState 6 2 1 c.maxSimTime c.cumProbs c.rand)).randIdx))
        refine FELok_insert q1 ?_
        simpa using hnn
      · exact q1
    · rw [placeAtScale_clock, q2, hclk0]
  · obtain ⟨fel, hfel⟩ := start_general c hps
    have hgen : c.start = (List.range c.numTrucks).foldl
        (fun t i => addEvent t ⟨0, .ALQ, i + 1⟩)
        (initialState c.numTrucks c.numLoaders c.numScales c.maxSimTime c.cumProbs c.rand) := by
      have hpsb : ¬(isProblemSpecific (initialState c.numTrucks c.numLoaders c.numScales
          c.maxSimTime c.cumProbs c.rand) = true) := by
        simp only [isProblemSpecific, initialState, Bool.and_eq_true, beq_iff_eq]
        exact fun hcon => hps ⟨hcon.1.1, hcon.1.2, hcon.2⟩
      rw [Config.start, init, if_neg hpsb]
      rfl
    constructor
    · rw [hgen]
      refine foldl_addEvent_felOk _ _ rfl ?_
      simp [initialState, FELok]
    · rw [hfel]
      rfl

/-! ## The main loop: monotone processed times, zero-horizon runs -/

theorem felOk_dispatch {s : SimState} (e : Event) (hT : TablesNonneg s.cumProbs)
    (h : FELok s.clock s.FEL) : FELok s.clock (dispatch e s).FEL := by
  unfold dispatch
  cases e.kind
  · exact felOk_handleALQ _ hT h
  · exact felOk_handleEL _ hT h
  · exact felOk_handleEW _ hT h

/-- In every terminating run of the loop from a well-formed state, the
processed event times are non-decreasing and never before the initial
clock. -/
theorem runLoop_chain (fuel : ℕ) : ∀ (s : SimState) (last : ℚ)
    (r : SimState × ℚ × List ℚ),
    TablesNonneg s.cumProbs → FELok s.clock s.FEL →
    runLoop fuel s last = some r →
    List.Chain' (· ≤ ·) r.2.2 ∧ ∀ t ∈ r.2.2, s.clock ≤ t := by
  induction fuel with
  | zero =>
    intro s last r _ _ h
    simp [runLoop] at h
  | succ n ih =>
    intro s last r hT hF hrun
    rw [runLoop] at hrun
    cases hfel : s.FEL with
    | nil =>
      rw [hfel] at hrun
      simp only [Option.some.injEq] at hrun
      rw [← hrun]
      exact ⟨List.chain'_nil, by intro t ht; simp at ht⟩
    | cons e rest =>
      rw [hfel] at hrun
      dsimp only at hrun
      by_cases hhor : s.maxSimTime < e.time
      · rw [if_pos hhor] at hrun
        simp only [Option.some.injEq] at hrun
        rw [← hrun]
        exact ⟨List.chain'_nil, by intro t ht; simp at ht⟩
      · rw [if_neg hhor] at hrun
        obtain ⟨r', hr', hfr⟩ := Option.map_eq_some'.mp hrun
        have hmem : e ∈ s.FEL := by rw [hfel]; exact List.mem_cons_self e rest
        have hle : s.clock ≤ e.time := hF.2 e hmem
        obtain ⟨g1, g2, g3, g4, g5, g6, g7, g8, g9⟩ :=
          sameFrame_dispatch (accountAndAdvance { s with FEL := rest } e last) e
        have hclk2 : (dispatch e (accountAndAdvance { s with FEL := rest } e last)).clock
            = e.time := g6
        have hcp2 : (dispatch e (accountAndAdvance { s with FEL := rest } e last)).cumProbs
            = s.cumProbs := g5
        have hFmid : FELok e.time rest := by
          have hp := hF.1
          rw [hfel, List.pairwise_cons] at hp
          refine ⟨hp.2, ?_⟩
          intro x hx
          exact hp.1 x hx
        have hTmid : TablesNonneg (accountAndAdvance { s with FEL := rest } e last).cumProbs :=
          hT
        have hMid : FELok (accountAndAdvance { s with FEL := rest } e last).clock
            (accountAndAdvance { s with FEL := rest } e last).FEL := hFmid
        have hF2 : FELok (dispatch e (accountAndAdvance { s with FEL := rest } e last)).clock
            (dispatch e (accountAndAdvance { s with FEL := rest } e last)).FEL := by
          rw [g6]
          exact felOk_dispatch e hTmid hMid
        have hT2 : TablesNonneg
            (dispatch e (accountAndAdvance { s with FEL := rest } e last)).cumProbs := by
          rw [g5]
          exact hT
        obtain ⟨hch, hbd⟩ := ih _ e.time r' hT2 hF2 hr'
        rw [hclk2] at hbd
        rw [← hfr]
        constructor
        · refine List.chain'_cons'.mpr ⟨?_, hch⟩
          intro y hy
          exact hbd y (List.mem_of_mem_head? hy)
        · intro t ht
          rcases List.mem_cons.mp ht with rfl | ht
          · exact hle
          · exact le_trans hle (hbd t ht)

/-- With horizon 0 and a well-formed event list, every terminating loop run
ends with the clock and the last update point both at 0. -/
theorem runLoop_zero (fuel : ℕ) : ∀ (s : SimState) (r : SimState × ℚ × List ℚ),
    s.maxSimTime = 0 → s.clock = 0 → TablesNonneg s.cumProbs → FELok 0 s.FEL →
    runLoop fuel s 0 = some r → r.1.clock = 0 ∧ r.2.1 = 0 := by
  induction fuel with
  | zero =>
    intro s r _ _ _ _ h
    simp [runLoop] at h
  | succ n ih =>
    intro s r hms hclk hT hF hrun
    rw [runLoop] at hrun
    cases hfel : s.FEL with
    | nil =>
      rw [hfel] at hrun
      simp only [Option.some.injEq] at hrun
      rw [← hrun]
      exact ⟨hclk, rfl⟩
    | cons e rest =>
      rw [hfel] at hrun
      dsimp only at hrun
      by_cases hhor : s.maxSimTime < e.time
      · rw [if_pos hhor] at hrun
        simp only [Option.some.injEq] at hrun
        rw [← hrun]
        exact ⟨hms, rfl⟩
      · rw [if_neg hhor] at hrun
        have hmem : e ∈ s.FEL := by rw [hfel]; exact List.mem_cons_self e rest
        have he0 : e.time = 0 := by
          have h1 := hF.2 e hmem
          rw [hms] at hhor
          linarith [not_lt.mp hhor]
        obtain ⟨r', hr', hfr⟩ := Option.map_eq_some'.mp hrun
        obtain ⟨g1, g2, g3, g4, g5, g6, g7, g8, g9⟩ :=
          sameFrame_dispatch (accountAndAdvance { s with FEL := rest } e 0) e
        rw [he0] at hr'
        have hFmid : FELok 0 rest := by
          have hp := hF.1
          rw [hfel, List.pairwise_cons] at hp
          refine ⟨hp.2, ?_⟩
          intro x hx
          exact hF.2 x (by rw [hfel]; exact List.mem_cons_of_mem e hx)
        have hTmid : TablesNonneg (accountAndAdvance { s with FEL := rest } e 0).cumProbs := hT
        have hMid : FELok (accountAndAdvance { s with FEL := rest } e 0).clock
            (accountAndAdvance { s with FEL := rest } e 0).FEL := by
          show FELok e.time rest
          rw [he0]
          exact hFmid
        have hF2 : FELok 0 (dispatch e (accountAndAdvance { s with FEL := rest } e 0)).FEL := by
          have h0 := felOk_dispatch e hTmid hMid
          have hck : (accountAndAdvance { s with FEL := rest } e 0).clock = 0 := he0
          rw [hck] at h0
          exact h0
        have hT2 : TablesNonneg
            (dispatch e (accountAndAdvance { s with FEL := rest } e 0)).cumProbs := by
          rw [g5]
          exact hT
        have hms2 : (dispatch e (accountAndAdvance { s with FEL := rest } e 0)).maxSimTime = 0 := by
          rw [g4]
          exact hms
        have hck2 : (dispatch e (accountAndAdvance { s with FEL := rest } e 0)).clock = 0 := by
          rw [g6]
          exact he0
        obtain ⟨hc', hl'⟩ := ih _ r' hms2 hck2 hT2 hF2 hr'
        rw [← hfr]
        exact ⟨hc', hl'⟩

/-! ## The final accumulator update -/

theorem finalUpdate_skip {s : SimState} {last : ℚ} (h : s.clock - last ≤ 0) :
    finalUpdate s last = s := by
  rw [finalUpdate, if_neg (not_lt.mpr h)]

theorem finalUpdate_add {s : SimState} {last : ℚ} (h : 0 < s.clock - last) :
    (finalUpdate s last).loaderBusyTime = s.loaderBusyTime + (s.L : ℚ) * (s.clock - last) ∧
    (finalUpdate s last).scaleBusyTime = s.scaleBusyTime + (s.W : ℚ) * (s.clock - last) ∧
    (finalUpdate s last).clock = s.clock ∧ (finalUpdate s last).L = s.L ∧
    (finalUpdate s last).W = s.W := by
  rw [finalUpdate, if_pos h]
  exact ⟨rfl, rfl, rfl, rfl, rfl⟩

/-! ## Counting trucks by phase -/

theorem countP_bool_add {α : Type} (p : α → Bool) (l : List α) :
    l.countP p + l.countP (fun a => !p a) = l.length := by
  induction l with
  | nil => rfl
  | cons x xs ih =>
    rw [List.countP_cons, List.countP_cons]
    cases hx : p x <;> simp [hx] <;> omega

theorem countActive_add_countIdle (l : List TruckState) :
    countActive l + countIdle l = l.length :=
  countP_bool_add isActive l

theorem countIdle_eq_zero {l : List TruckState} (h : ∀ t ∈ l, t ≠ TruckState.IDLE) :
    countIdle l = 0 := by
  rw [countIdle, List.countP_eq_zero]
  intro a ha hcon
  cases a
  · exact h _ ha rfl
  all_goals simp [isActive] at hcon

theorem countIdle_set_le (l : List TruckState) (i : ℕ) {v : TruckState}
    (hv : isActive v = true) : countIdle (l.set i v) ≤ countIdle l := by
  induction l generalizing i with
  | nil => simp [countIdle]
  | cons x xs ih =>
    cases i with
    | zero =>
      rw [List.set_cons_zero, countIdle, countIdle, List.countP_cons, List.countP_cons, hv]
      have hz : (if (!true : Bool) = true then 1 else 0) = 0 := rfl
      rw [hz]
      split <;> omega
    | succ n =>
      simp only [List.set_cons_succ, countIdle, List.countP_cons]
      have := ih n
      rw [countIdle, countIdle] at this
      omega

theorem countIdle_dispatch_le (s : SimState) (e : Event) :
    countIdle ((dispatch e s).trucks) ≤ countIdle s.trucks := by
  unfold dispatch
  cases e.kind
  · obtain ⟨_, _, _, _, _, _, e7⟩ := handleALQ_state s e.truckId
    rw [e7]
    split
    · exact le_trans (countIdle_set_le _ _ rfl) (countIdle_set_le _ _ rfl)
    · exact countIdle_set_le _ _ rfl
  · obtain ⟨_, _, _, _, _, _, e7⟩ := handleEL_state s e.truckId
    rw [e7]
    by_cases hWc : s.W < (s.numScales : ℤ) <;>
      [rw [if_pos hWc]; rw [if_neg hWc]] <;>
      by_cases hQ : 0 < s.LQ <;>
      [rw [if_pos hQ]; rw [if_neg hQ]; rw [if_pos hQ]; rw [if_neg hQ]] <;>
      (try rcases s.loaderQueue with _ | ⟨a, b⟩) <;>
      first
        | exact le_trans (countIdle_set_le _ _ rfl)
            (le_trans (countIdle_set_le _ _ rfl) (countIdle_set_le _ _ rfl))
        | exact le_trans (countIdle_set_le _ _ rfl) (countIdle_set_le _ _ rfl)
        | exact countIdle_set_le _ _ rfl
  · obtain ⟨_, _, _, _, _, _, e7⟩ := handleEW_state s e.truckId
    rw [e7]
    by_cases hQ : 0 < s.WQ <;>
      [rw [if_pos hQ]; rw [if_neg hQ]] <;>
      (try rcases s.weigherQueue with _ | ⟨a, b⟩) <;>
      first
        | exact le_trans (countIdle_set_le _ _ rfl) (countIdle_set_le _ _ rfl)
        | exact countIdle_set_le _ _ rfl

/-! ## The cumulative table construction -/

theorem cumAux_length (c : ℚ) (l : List (ℚ × ℚ)) : (cumAux c l).length = l.length := by
  induction l generalizing c with
  | nil => rfl
  | cons x xs ih =>
    obtain ⟨t, p⟩ := x
    simp [cumAux, ih]

theorem pinLast_length (l : List Entry) : (pinLast l).length = l.length := by
  induction l with
  | nil => rfl
  | cons x xs ih =>
    cases xs with
    | nil => rfl
    | cons y ys =>
      simp only [pinLast, List.length_cons] at *
      omega

theorem cumAux_get? (c : ℚ) (l : List (ℚ × ℚ)) (i : ℕ) :
    (cumAux c l).get? i = (l.get? i).map (fun pr => ⟨pr.1, c + probSum (l.take (i + 1))⟩) := by
  induction l generalizing c i with
  | nil => simp [cumAux]
  | cons x xs ih =>
    obtain ⟨t, p⟩ := x
    cases i with
    | zero => simp [cumAux, probSum]
    | succ n =>
      simp only [cumAux, List.get?_cons_succ, List.take_succ_cons]
      rw [ih (c + p) n]
      cases hx : xs.get? n with
      | none => simp
      | some pr =>
        simp only [Option.map_some']
        congr 1
        obtain ⟨a, b⟩ := pr
        simp [probSum]
        ring

theorem pinLast_cum_getLast (l : List Entry) (h : l ≠ []) :
    ((pinLast l).map Entry.cum_prob).getLast? = some 1 := by
  induction l with
  | nil => exact absurd rfl h
  | cons x xs ih =>
    cases xs with
    | nil => rfl
    | cons y ys =>
      have hne : (y :: ys : List Entry) ≠ [] := by simp
      have hlen : (pinLast (y :: ys)).length = ys.length + 1 := by
        rw [pinLast_length]
        rfl
      obtain ⟨z, zs, hz⟩ := List.exists_cons_of_ne_nil
        (List.ne_nil_of_length_pos (hlen ▸ Nat.succ_pos ys.length) :
          pinLast (y :: ys) ≠ [])
      have hih := ih hne
      show ((x :: pinLast (y :: ys)).map Entry.cum_prob).getLast? = some 1
      rw [hz] at hih ⊢
      simp only [List.map_cons]
      rw [List.getLast?_cons_cons]
      simpa using hih

theorem pinLast_eq_self {l : List Entry}
    (h : (l.map Entry.cum_prob).getLast? = some 1) : pinLast l = l := by
  induction l with
  | nil => rfl
  | cons x xs ih =>
    cases xs with
    | nil =>
      obtain ⟨t, cp⟩ := x
      simp only [List.map_cons, List.map_nil, List.getLast?_singleton,
        Option.some.injEq] at h
      show [(⟨t, 1⟩ : Entry)] = [⟨t, cp⟩]
      rw [h]
    | cons y ys =>
      have hih := ih (by
        rw [List.map_cons, List.map_cons, List.getLast?_cons_cons] at h
        rw [List.map_cons]
        exact h)
      show x :: pinLast (y :: ys) = x :: y :: ys
      rw [hih]

/-! ## First-match characterization of the sampler -/

theorem find?_first {p : Entry → Bool} {table : List Entry} {e : Entry}
    (h : table.find? p = some e) :
    ∃ i, ∃ hi : i < table.length, table.get ⟨i, hi⟩ = e ∧ p e = true ∧
      ∀ j (hj : j < table.length), j < i → p (table.get ⟨j, hj⟩) = false := by
  induction table with
  | nil => simp [List.find?] at h
  | cons x xs ih =>
    rw [List.find?] at h
    cases hpx : p x with
    | true =>
      rw [hpx] at h
      simp only [Option.some.injEq] at h
      refine ⟨0, by simp, by simpa using h, by rw [← h]; exact hpx, ?_⟩
      intro j hj hj0
      omega
    | false =>
      rw [hpx] at h
      simp only [] at h
      obtain ⟨i, hi, hget, hpe, hprev⟩ := ih h
      refine ⟨i + 1, by simpa using Nat.succ_lt_succ hi, by simpa using hget, hpe, ?_⟩
      intro j hj hji
      cases j with
      | zero => simpa using hpx
      | succ m =>
        have hm : m < xs.length := by simpa using hj
        have := hprev m hm (by omega)
        simpa using this

theorem find?_none_all {p : Entry → Bool} {table : List Entry}
    (h : table.find? p = none) :
    ∀ j (hj : j < table.length), p (table.get ⟨j, hj⟩) = false := by
  intro j hj
  have hmem : table.get ⟨j, hj⟩ ∈ table := table.get_mem _ _
  have := List.find?_eq_none.mp h _ hmem
  simpa using this


theorem sampleSpec_of_ne_nil (table : List Entry) (r : ℚ) (hne : table ≠ []) :
    SampleSpec table r := by
  refine ⟨?_, getRandomTime_mem hne r⟩
  cases hf : table.find? (fun e => decide (r ≤ e.cum_prob)) with
  | some e =>
    obtain ⟨i, hi, hget, hpe, hprev⟩ := find?_first hf
    refine ⟨i, hi, ?_, ?_, ?_⟩
    · rw [getRandomTime, hf, hget]
    · intro j hj hji
      have := hprev j hj hji
      simpa using this
    · left
      rw [hget]
      simpa using hpe
  | none =>
    have hall := find?_none_all hf
    have hlen : 0 < table.length := List.length_pos.mpr hne
    refine ⟨table.length - 1, by omega, ?_, ?_, ?_⟩
    · rw [getRandomTime, hf]
      rw [List.getLast?_eq_getLast _ hne]
      simp only [Option.map_some', Option.getD_some]
      congr 1
      simp [List.getLast_eq_getElem]
    · intro j hj _
      have := hall j hj
      simpa using this
    · right
      refine ⟨rfl, ?_⟩
      intro j hj
      have := hall j hj
      simpa using this

/-! ## The random-draw index consumed by the `handleEL` hand-off -/

theorem handleEL_randIdx (s : SimState) (tid : ℕ) :
    (handleEL s tid).randIdx =
      (if 0 < s.LQ then
        match s.loaderQueue with
        | [] => (if s.W < (s.numScales : ℤ) then s.randIdx + 1 else s.randIdx)
        | _ :: _ => (if s.W < (s.numScales : ℤ) then s.randIdx + 1 else s.randIdx) + 1
      else (if s.W < (s.numScales : ℤ) then s.randIdx + 1 else s.randIdx)) := by
  simp only [handleEL, setTruck, addEvent]
  split <;> split <;> (try split) <;> simp_all

/-! ## Remaining auxiliary facts -/

theorem start_maxSimTime (c : Config) : (c.start).maxSimTime = c.maxSimTime := by
  by_cases hps : c.numTrucks = 6 ∧ c.numLoaders = 2 ∧ c.numScales = 1
  · obtain ⟨h6, h2, h1⟩ := hps
    have hc : c = Config.mk 6 2 1 c.maxSimTime c.cumProbs c.rand := by
      obtain ⟨a, b, d, e, f, g⟩ := c
      simp_all
    rw [hc]
    exact (start_specific c.maxSimTime c.cumProbs c.rand).2.2.2.2.2.2.2.2.2.2.2.1
  · obtain ⟨fel, hfel⟩ := start_general c hps
    rw [hfel]
    rfl

theorem start_cumProbs (c : Config) : (c.start).cumProbs = c.cumProbs := by
  by_cases hps : c.numTrucks = 6 ∧ c.numLoaders = 2 ∧ c.numScales = 1
  · obtain ⟨h6, h2, h1⟩ := hps
    have hc : c = Config.mk 6 2 1 c.maxSimTime c.cumProbs c.rand := by
      obtain ⟨a, b, d, e, f, g⟩ := c
      simp_all
    rw [hc]
    exact (start_specific c.maxSimTime c.cumProbs c.rand).2.2.2.2.2.2.2.2.2.2.2.2
  · obtain ⟨fel, hfel⟩ := start_general c hps
    rw [hfel]
    rfl

theorem getFinalStats_zero {t : SimState} (h : t.clock = 0) :
    getFinalStats t = (0, 0, 0) := by
  simp [getFinalStats, h]

theorem cumAux_cum_getLast (c : ℚ) (l : List (ℚ × ℚ)) (h : l ≠ []) :
    ((cumAux c l).map Entry.cum_prob).getLast? = some (c + probSum l) := by
  induction l generalizing c with
  | nil => exact absurd rfl h
  | cons x xs ih =>
    obtain ⟨t, p⟩ := x
    cases xs with
    | nil =>
      simp [cumAux, probSum]
    | cons y ys =>
      have hih := ih (c + p) (by simp)
      show ((⟨t, c + p⟩ :: cumAux (c + p) (y :: ys)).map Entry.cum_prob).getLast? = _
      obtain ⟨z, zs, hz⟩ := List.exists_cons_of_ne_nil
        (List.ne_nil_of_length_pos
          (by rw [cumAux_length]; simp : 0 < (cumAux (c + p) (y :: ys)).length))
      rw [hz] at hih ⊢
      simp only [List.map_cons]
      rw [List.getLast?_cons_cons]
      simp only [List.map_cons] at hih
      rw [hih]
      congr 1
      simp [probSum]
      ring

/-! ## The claims -/

/-- C1: for every valid configuration (`loader_capacity ≥ 1`,
`scale_capacity ≥ 1`, `truck_count ≥ 1`) and every reachable state of a run
(after initialization and after each event-processing step), the busy
counters satisfy `loaders_busy ≤ loader_capacity` and
`scales_busy ≤ scale_capacity`. -/
theorem capacity_invariant (c : Config) (s : SimState)
    (hT : 1 ≤ c.numTrucks) (hL : 1 ≤ c.numLoaders) (hS : 1 ≤ c.numScales)
    (hr : Reachable c s) :
    s.L ≤ (c.numLoaders : ℤ) ∧ s.W ≤ (c.numScales : ℤ) := by
  have inv := reachable_inv hr
  exact ⟨inv.hNL ▸ inv.hL, inv.hNS ▸ inv.hW⟩

theorem capacity_invariant_witness :
    (cfgSix.start).L ≤ (cfgSix.numLoaders : ℤ) ∧
      (cfgSix.start).W ≤ (cfgSix.numScales : ℤ) :=
  capacity_invariant cfgSix cfgSix.start (by decide) (by decide) (by decide)
    Reachable.init

/-- C10: in every reachable state of a run, a non-empty loader queue means
`loaders_busy = loader_capacity` and a non-empty scale queue means
`scales_busy = scale_capacity`: no truck waits while a server of that
resource is idle, and this work-conserving property is preserved by
initialization and by every event handler. -/
theorem work_conserving (c : Config) (s : SimState) (hr : Reachable c s) :
    (s.loaderQueue ≠ [] → s.L = (c.numLoaders : ℤ)) ∧
    (s.weigherQueue ≠ [] → s.W = (c.numScales : ℤ)) := by
  have inv := reachable_inv hr
  constructor
  · intro hne
    exact inv.hNL ▸ inv.hLQne hne
  · intro hne
    exact inv.hNS ▸ inv.hWQne hne

theorem work_conserving_witness :
    (cfgSix.start).L = (cfgSix.numLoaders : ℤ) :=
  (work_conserving cfgSix cfgSix.start Reachable.init).1 (by decide)

/-- C2 counterexample: in the general initialization mode every truck starts
`IDLE` with only its arrival event scheduled, so right after initialization —
a reachable state of the valid configuration `cfgUnit` (1 truck, 1 loader,
1 scale) — the number of trucks in the five in-system phases is 0, not
`truck_count`. -/
theorem conservation_counterexample :
    (1 ≤ cfgUnit.numTrucks ∧ 1 ≤ cfgUnit.numLoaders ∧ 1 ≤ cfgUnit.numScales) ∧
    Reachable cfgUnit cfgUnit.start ∧
    countActive (cfgUnit.start).trucks ≠ cfgUnit.numTrucks :=
  ⟨by decide, Reachable.init, by decide⟩

/-- C2 (amended): in every reachable state the truck array keeps exactly
`truck_count` trucks and the number of trucks in the five in-system phases
equals `truck_count` minus the number of still-`Idle` trucks (no truck is
ever lost, duplicated or given a terminal state); processing an event never
returns a truck to `Idle`; and under the problem-specific initialization
(6 trucks, 2 loaders, 1 scale) no truck is ever `Idle`, so the five-phase
count equals `truck_count` at every reachable state. -/
theorem conservation_amended (c : Config) (s : SimState) (hr : Reachable c s)
    (e : Event) (rest : List Event) (last : ℚ) :
    s.trucks.length = c.numTrucks ∧
    countActive s.trucks + countIdle s.trucks = c.numTrucks ∧
    ((c.numTrucks = 6 ∧ c.numLoaders = 2 ∧ c.numScales = 1) →
      countActive s.trucks = c.numTrucks) ∧
    (s.FEL = e :: rest →
      countIdle ((dispatch e (accountAndAdvance { s with FEL := rest } e last)).trucks) ≤
        countIdle s.trucks) := by
  have inv := reachable_inv hr
  refine ⟨inv.hTlen, ?_, ?_, ?_⟩
  · rw [countActive_add_countIdle, inv.hTlen]
  · intro hps
    have hz := countIdle_eq_zero (inv.hIdle hps)
    have hsum := countActive_add_countIdle s.trucks
    have hlen := inv.hTlen
    omega
  · intro _
    exact countIdle_dispatch_le (accountAndAdvance { s with FEL := rest } e last) e

theorem conservation_amended_witness :
    (cfgSix.start).trucks.length = cfgSix.numTrucks ∧
    countActive (cfgSix.start).trucks + countIdle (cfgSix.start).trucks = cfgSix.numTrucks ∧
    countActive (cfgSix.start).trucks = cfgSix.numTrucks ∧
    countIdle ((dispatch ⟨0, .ALQ, 1⟩
        (accountAndAdvance { cfgUnit.start with FEL := [] } ⟨0, .ALQ, 1⟩ 0)).trucks) ≤
      countIdle (cfgUnit.start).trucks :=
  ⟨(conservation_amended cfgSix cfgSix.start Reachable.init ⟨0, .ALQ, 1⟩ [] 0).1,
   (conservation_amended cfgSix cfgSix.start Reachable.init ⟨0, .ALQ, 1⟩ [] 0).2.1,
   (conservation_amended cfgSix cfgSix.start Reachable.init ⟨0, .ALQ, 1⟩ [] 0).2.2.1
     ⟨rfl, rfl, rfl⟩,
   (conservation_amended cfgUnit cfgUnit.start Reachable.init ⟨0, .ALQ, 1⟩ [] 0).2.2.2 rfl⟩

/-- C3: at each in-horizon event-processing step the loop recurses after
adding `loaders_busy * elapsed` and `scales_busy * elapsed` to the
accumulator, where `elapsed` is the event time minus the last update time and
the busy counts are those in effect before the handler's side effects (the
handler never touches the integrals); after the loop, `run` performs exactly
one final accumulator update for the interval from the last update time to
the final clock, skipped when that interval is zero or negative. -/
theorem accumulator_rule (fuel : ℕ) (s : SimState) (e : Event) (rest : List Event)
    (last : ℚ) (t : SimState) (l : ℚ) (f : ℕ) (c : Config)
    (h1 : s.FEL = e :: rest) (h2 : ¬ s.maxSimTime < e.time) :
    runLoop (fuel + 1) s last =
      (runLoop fuel (dispatch e (accountAndAdvance { s with FEL := rest } e last)) e.time).map
        (fun r => (r.1, r.2.1, e.time :: r.2.2)) ∧
    (dispatch e (accountAndAdvance { s with FEL := rest } e last)).loaderBusyTime =
      s.loaderBusyTime + (s.L : ℚ) * (e.time - last) ∧
    (dispatch e (accountAndAdvance { s with FEL := rest } e last)).scaleBusyTime =
      s.scaleBusyTime + (s.W : ℚ) * (e.time - last) ∧
    (t.clock - l ≤ 0 → finalUpdate t l = t) ∧
    (0 < t.clock - l →
      (finalUpdate t l).loaderBusyTime = t.loaderBusyTime + (t.L : ℚ) * (t.clock - l) ∧
      (finalUpdate t l).scaleBusyTime = t.scaleBusyTime + (t.W : ℚ) * (t.clock - l)) ∧
    runSim f c = (runLoop f c.start 0).map (fun r => finalUpdate r.1 r.2.1) := by
  obtain ⟨g1, g2, g3, g4, g5, g6, g7, g8, g9⟩ :=
    sameFrame_dispatch (accountAndAdvance { s with FEL := rest } e last) e
  refine ⟨?_, ?_, ?_, ?_, ?_, rfl⟩
  · rw [runLoop, h1]
    dsimp only
    rw [if_neg h2]
  · exact g7
  · exact g8
  · intro hd
    exact finalUpdate_skip hd
  · intro hd
    obtain ⟨q1, q2, _, _, _⟩ := finalUpdate_add hd
    exact ⟨q1, q2⟩

theorem accumulator_rule_witness :
    (runLoop 4 sAcc 0 =
      (runLoop 3 (dispatch ⟨2, .ALQ, 1⟩
          (accountAndAdvance { sAcc with FEL := [] } ⟨2, .ALQ, 1⟩ 0)) 2).map
        (fun r => (r.1, r.2.1, 2 :: r.2.2))) ∧
    (dispatch ⟨2, .ALQ, 1⟩
        (accountAndAdvance { sAcc with FEL := [] } ⟨2, .ALQ, 1⟩ 0)).loaderBusyTime =
      sAcc.loaderBusyTime + (sAcc.L : ℚ) * (2 - 0) ∧
    finalUpdate sAcc 5 = sAcc ∧
    (finalUpdate sClock7 1).loaderBusyTime =
      sClock7.loaderBusyTime + (sClock7.L : ℚ) * (sClock7.clock - 1) ∧
    runSim 4 cfgUnit = (runLoop 4 cfgUnit.start 0).map (fun r => finalUpdate r.1 r.2.1) :=
  ⟨(accumulator_rule 3 sAcc ⟨2, .ALQ, 1⟩ [] 0 sAcc 5 4 cfgUnit rfl
      (by norm_num [sAcc])).1,
   (accumulator_rule 3 sAcc ⟨2, .ALQ, 1⟩ [] 0 sAcc 5 4 cfgUnit rfl
      (by norm_num [sAcc])).2.1,
   (accumulator_rule 3 sAcc ⟨2, .ALQ, 1⟩ [] 0 sAcc 5 4 cfgUnit rfl
      (by norm_num [sAcc])).2.2.2.1 (by norm_num [sAcc]),
   ((accumulator_rule 3 sAcc ⟨2, .ALQ, 1⟩ [] 0 sClock7 1 4 cfgUnit rfl
      (by norm_num [sAcc])).2.2.2.2.1 (by norm_num [sClock7, sAcc])).1,
   (accumulator_rule 3 sAcc ⟨2, .ALQ, 1⟩ [] 0 sAcc 5 4 cfgUnit rfl
      (by norm_num [sAcc])).2.2.2.2.2⟩

/-- C4: when the earliest pending event's time exceeds the horizon, the loop
sets the clock to the horizon and stops: the event is discarded unprocessed,
no handler runs, no accumulator update is made, and the resource counters,
wait lists and truck phases are unchanged. -/
theorem horizon_discard (fuel : ℕ) (s : SimState) (e : Event) (rest : List Event)
    (last : ℚ) (h1 : s.FEL = e :: rest) (h2 : s.maxSimTime < e.time) :
    runLoop (fuel + 1) s last =
      some ({ s with FEL := rest, clock := s.maxSimTime }, last, []) ∧
    ({ s with FEL := rest, clock := s.maxSimTime } : SimState).clock = s.maxSimTime ∧
    ({ s with FEL := rest, clock := s.maxSimTime } : SimState).L = s.L ∧
    ({ s with FEL := rest, clock := s.maxSimTime } : SimState).W = s.W ∧
    ({ s with FEL := rest, clock := s.maxSimTime } : SimState).LQ = s.LQ ∧
    ({ s with FEL := rest, clock := s.maxSimTime } : SimState).WQ = s.WQ ∧
    ({ s with FEL := rest, clock := s.maxSimTime } : SimState).loaderQueue = s.loaderQueue ∧
    ({ s with FEL := rest, clock := s.maxSimTime } : SimState).weigherQueue = s.weigherQueue ∧
    ({ s with FEL := rest, clock := s.maxSimTime } : SimState).trucks = s.trucks ∧
    ({ s with FEL := rest, clock := s.maxSimTime } : SimState).loaderBusyTime =
      s.loaderBusyTime ∧
    ({ s with FEL := rest, clock := s.maxSimTime } : SimState).scaleBusyTime =
      s.scaleBusyTime ∧
    ({ s with FEL := rest, clock := s.maxSimTime } : SimState).randIdx = s.randIdx := by
  refine ⟨?_, rfl, rfl, rfl, rfl, rfl, rfl, rfl, rfl, rfl, rfl, rfl⟩
  rw [runLoop, h1]
  dsimp only
  rw [if_pos h2]

theorem horizon_discard_witness :
    runLoop 4 sHor 0 =
      some ({ sHor with FEL := [], clock := sHor.maxSimTime }, 0, []) ∧
    ({ sHor with FEL := [], clock := sHor.maxSimTime } : SimState).trucks = sHor.trucks :=
  ⟨(horizon_discard 3 sHor ⟨20, .EL, 1⟩ [] 0 rfl (by norm_num [sHor, sAcc])).1,
   (horizon_discard 3 sHor ⟨20, .EL, 1⟩ [] 0 rfl (by norm_num [sHor, sAcc])).2.2.2.2.2.2.2.2.1⟩

/-- C5: an `EndLoading` event processed while the loader queue is non-empty
dequeues the head truck of the FIFO queue, decrements the queue counter,
restores `loaders_busy` to its pre-event value (decrement plus hand-off
increment, so the step leaves it unchanged overall), sets the dequeued
truck's phase to `Loading` and inserts its `EndLoading` event at
`clock + freshly drawn loading time` within the same step — the resulting
event list is exactly the pre-event list plus this step's own insertions,
with no separate "loader becomes free" event. -/
theorem handoff_same_step (s : SimState) (tid next : ℕ) (restQ : List ℕ)
    (hq : s.loaderQueue = next :: restQ) (hlq : 0 < s.LQ)
    (hn : next - 1 < s.trucks.length) :
    (handleEL s tid).L = s.L ∧
    (handleEL s tid).LQ = s.LQ - 1 ∧
    (handleEL s tid).loaderQueue = restQ ∧
    (handleEL s tid).clock = s.clock ∧
    (handleEL s tid).trucks[next - 1]? = some .LOADING ∧
    (handleEL s tid).FEL =
      insertEvent
        ⟨s.clock + getRandomTime s.cumProbs.loading
          (s.rand (if s.W < (s.numScales : ℤ) then s.randIdx + 1 else s.randIdx)), .EL, next⟩
        (if s.W < (s.numScales : ℤ) then
          insertEvent
            ⟨s.clock + getRandomTime s.cumProbs.weighing (s.rand s.randIdx), .EW, tid⟩ s.FEL
        else s.FEL) ∧
    (handleEL s tid).randIdx =
      (if s.W < (s.numScales : ℤ) then s.randIdx + 1 else s.randIdx) + 1 := by
  obtain ⟨e1, e2, e3, e4, e5, e6, e7⟩ := handleEL_state s tid
  obtain ⟨f1, f2, f3, f4, f5, f6, f7, f8, f9⟩ := sameFrame_handleEL s tid
  rw [if_pos hlq, hq] at e1 e3 e5 e7
  simp only [] at e1 e3 e5 e7
  refine ⟨e1, e3, e5, f6, ?_, ?_, ?_⟩
  · rw [e7]
    by_cases hWc : s.W < (s.numScales : ℤ)
    · rw [if_pos hWc]
      simp [List.getElem?_set_self, List.length_set, hn]
    · rw [if_neg hWc]
      simp [List.getElem?_set_self, List.length_set, hn]
  · rw [handleEL_FEL]
    by_cases hWc : s.W < (s.numScales : ℤ)
    · simp only [if_pos hWc, if_pos hlq, hq]
    · simp only [if_neg hWc, if_pos hlq, hq]
  · rw [handleEL_randIdx]
    by_cases hWc : s.W < (s.numScales : ℤ)
    · simp only [if_pos hWc, if_pos hlq, hq]
    · simp only [if_neg hWc, if_pos hlq, hq]

theorem handoff_same_step_witness :
    (handleEL sHand 1).L = sHand.L ∧
    (handleEL sHand 1).LQ = sHand.LQ - 1 ∧
    (handleEL sHand 1).loaderQueue = [] ∧
    (handleEL sHand 1).clock = sHand.clock ∧
    (handleEL sHand 1).trucks[2 - 1]? = some .LOADING ∧
    (handleEL sHand 1).FEL =
      insertEvent
        ⟨sHand.clock + getRandomTime sHand.cumProbs.loading
          (sHand.rand (if sHand.W < (sHand.numScales : ℤ) then sHand.randIdx + 1
            else sHand.randIdx)), .EL, 2⟩
        (if sHand.W < (sHand.numScales : ℤ) then
          insertEvent
            ⟨sHand.clock + getRandomTime sHand.cumProbs.weighing (sHand.rand sHand.randIdx),
              .EW, 1⟩ sHand.FEL
        else sHand.FEL) ∧
    (handleEL sHand 1).randIdx =
      (if sHand.W < (sHand.numScales : ℤ) then sHand.randIdx + 1 else sHand.randIdx) + 1 :=
  handoff_same_step sHand 1 2 [] rfl (by decide) (by decide)

/-- C6: on a non-empty cumulative table and a draw `r ∈ [0, 1)`,
`getRandomTime` returns the `time` of the first entry whose cumulative
probability is at least `r`, falling back to the last entry's `time` when no
entry qualifies; in either case the returned value is one of the values
present in the table. -/
theorem sampler_first_match (table : List Entry) (r : ℚ) (hne : table ≠ [])
    (hr0 : 0 ≤ r) (hr1 : r < 1) : SampleSpec table r :=
  sampleSpec_of_ne_nil table r hne

theorem sampler_first_match_witness : SampleSpec tblThree (1/2) :=
  sampler_first_match tblThree (1/2) (by simp [tblThree]) (by norm_num) (by norm_num)

/-- C7 counterexample: `createCumulativeTable` succeeds on a distribution
containing a negative probability whose probabilities sum to exactly 1, so
cumulative-table construction does not fail "exactly when some probability is
negative or …": negativity alone does not make construction fail (it is the
parsing stage that rejects negative probabilities, with a range error, not
`InvalidDistribution`). -/
theorem cumtable_counterexample :
    ((-1/2 : ℚ) < 0) ∧
    createCumulativeTable [(5, -1/2), (10, 3/2)] =
      .ok [⟨5, -1/2⟩, ⟨10, 1⟩] := by
  constructor
  · norm_num
  · rw [createCumulativeTable, if_neg (by norm_num [probSum])]
    norm_num [cumAux, pinLast]

/-- C7 (amended): `createCumulativeTable` fails with `InvalidDistribution`
exactly when the probabilities' sum deviates from 1.0 by more than 0.001 (the
empty list fails because its sum 0 deviates by 1); negative probabilities are
rejected earlier, by `parseDistribution` with a range error; and when
construction succeeds on a distribution summing to exactly 1.0, the result
has the same length, entry `i` carries the input's value paired with the
running sum of probabilities up to and including entry `i`, and the final
cumulative probability is exactly 1.0. -/
theorem cumtable_amended (dist : List (ℚ × ℚ)) (tbl : List Entry) (i : ℕ)
    (pairs : List (ℚ × ℚ)) (t p : ℚ) :
    (createCumulativeTable dist = .error .InvalidDistribution ↔
      1/1000 < |probSum dist - 1|) ∧
    createCumulativeTable [] = .error .InvalidDistribution ∧
    ((t, p) ∈ pairs → p < 0 → parseDistribution pairs = .error .ProbOutOfRange) ∧
    (probSum dist = 1 → createCumulativeTable dist = .ok tbl →
      tbl.length = dist.length ∧
      tbl.get? i = (dist.get? i).map (fun pr => ⟨pr.1, probSum (dist.take (i + 1))⟩) ∧
      (tbl.map Entry.cum_prob).getLast? = some 1) := by
  refine ⟨?_, ?_, ?_, ?_⟩
  · rw [createCumulativeTable]
    split
    · exact iff_of_true rfl (by assumption)
    · exact iff_of_false (by simp) (by assumption)
  · rw [createCumulativeTable, if_pos (by norm_num [probSum])]
  · intro hmem hp
    rw [parseDistribution,
      if_pos (List.any_eq_true.mpr ⟨(t, p), hmem, by simp [hp]⟩)]
  · intro hsum hok
    have hne : dist ≠ [] := by
      intro hnil
      rw [hnil] at hsum
      simp [probSum] at hsum
    rw [createCumulativeTable, if_neg (by rw [hsum]; norm_num)] at hok
    simp only [Except.ok.injEq] at hok
    have hlast : ((cumAux 0 dist).map Entry.cum_prob).getLast? = some 1 := by
      rw [cumAux_cum_getLast 0 dist hne, hsum]
      norm_num
    have hpin : pinLast (cumAux 0 dist) = cumAux 0 dist := pinLast_eq_self hlast
    rw [hpin] at hok
    subst hok
    refine ⟨cumAux_length 0 dist, ?_, ?_⟩
    · rw [cumAux_get? 0 dist i]
      cases hx : dist.get? i with
      | none => simp
      | some pr =>
        simp only [Option.map_some']
        congr 1
        simp
    · have hcne : cumAux 0 dist ≠ [] := by
        intro hnil
        have := cumAux_length 0 dist
        rw [hnil] at this
        exact hne (List.eq_nil_of_length_eq_zero this.symm)
      exact hlast

theorem cumtable_amended_witness :
    (createCumulativeTable distThree = .error .InvalidDistribution ↔
      1/1000 < |probSum distThree - 1|) ∧
    createCumulativeTable [] = .error .InvalidDistribution ∧
    parseDistribution pairsNeg = .error .ProbOutOfRange ∧
    (tblThreeCum.length = distThree.length ∧
      tblThreeCum.get? 1 =
        (distThree.get? 1).map (fun pr => ⟨pr.1, probSum (distThree.take 2)⟩) ∧
      (tblThreeCum.map Entry.cum_prob).getLast? = some 1) :=
  ⟨(cumtable_amended distThree tblThreeCum 1 pairsNeg 5 (-1/2)).1,
   (cumtable_amended distThree tblThreeCum 1 pairsNeg 5 (-1/2)).2.1,
   (cumtable_amended distThree tblThreeCum 1 pairsNeg 5 (-1/2)).2.2.1
     (by simp [pairsNeg]) (by norm_num),
   (cumtable_amended distThree tblThreeCum 1 pairsNeg 5 (-1/2)).2.2.2
     (by norm_num [probSum, distThree])
     (by
       rw [createCumulativeTable, if_neg (by norm_num [probSum, distThree])]
       norm_num [cumAux, pinLast, distThree, tblThreeCum])⟩

/-- C9: in every terminating run, the sequence of event times processed by
the main loop (the successive values the clock is advanced to) is
non-decreasing, provided the configured tables hold non-negative durations. -/
theorem monotonic_clock (c : Config) (fuel : ℕ) (tr : List ℚ)
    (hT : TablesNonneg c.cumProbs) (h : runTrace fuel c = some tr) :
    List.Chain' (· ≤ ·) tr := by
  rw [runTrace] at h
  obtain ⟨r, hrun, hmap⟩ := Option.map_eq_some'.mp h
  have hT' : TablesNonneg (c.start).cumProbs := by
    rw [start_cumProbs]
    exact hT
  have hF : FELok (c.start).clock (c.start).FEL := by
    obtain ⟨h1, h2⟩ := start_felOk c hT
    rw [h2]
    exact h1
  have := (runLoop_chain fuel c.start 0 r hT' hF hrun).1
  rw [← hmap]
  exact this

theorem monotonic_clock_witness : List.Chain' (· ≤ ·) ([] : List ℚ) :=
  monotonic_clock cfgNeg 1 [] (by norm_num [cfgNeg, cpUnit, TablesNonneg]) rfl

/-- C8: `getFinalStats` reports the total time and each utilization as the
busy-time integral divided by `capacity * total_time`, as a percentage,
returning 0 instead of failing when the available time is not positive; and
every terminating run configured with horizon 0 and non-negative durations
yields total time 0 and both utilizations 0. -/
theorem zero_horizon_stats (c : Config) (fuel : ℕ) (st : ℚ × ℚ × ℚ) (t : SimState)
    (h0 : c.maxSimTime = 0) (hT : TablesNonneg c.cumProbs)
    (h : runStats fuel c = some st) :
    st = (0, 0, 0) ∧
    (getFinalStats t).1 = t.clock ∧
    (0 < (t.numLoaders : ℚ) * t.clock →
      (getFinalStats t).2.1 = t.loaderBusyTime / ((t.numLoaders : ℚ) * t.clock) * 100) ∧
    ((t.numLoaders : ℚ) * t.clock ≤ 0 → (getFinalStats t).2.1 = 0) ∧
    (0 < (t.numScales : ℚ) * t.clock →
      (getFinalStats t).2.2 = t.scaleBusyTime / ((t.numScales : ℚ) * t.clock) * 100) ∧
    ((t.numScales : ℚ) * t.clock ≤ 0 → (getFinalStats t).2.2 = 0) := by
  refine ⟨?_, rfl, ?_, ?_, ?_, ?_⟩
  · rw [runStats] at h
    obtain ⟨sf, hsf, hstat⟩ := Option.map_eq_some'.mp h
    rw [runSim] at hsf
    obtain ⟨r, hr, hfin⟩ := Option.map_eq_some'.mp hsf
    obtain ⟨hFok, hclk0⟩ := start_felOk c hT
    have hms : (c.start).maxSimTime = 0 := by rw [start_maxSimTime]; exact h0
    have hT' : TablesNonneg (c.start).cumProbs := by rw [start_cumProbs]; exact hT
    obtain ⟨hc0, hl0⟩ := runLoop_zero fuel c.start r hms hclk0 hT' hFok hr
    rw [hl0] at hfin
    have hskip : finalUpdate r.1 0 = r.1 := finalUpdate_skip (by rw [hc0]; norm_num)
    rw [hskip] at hfin
    rw [← hfin] at hstat
    rw [getFinalStats_zero hc0] at hstat
    exact hstat.symm
  · intro hpos
    simp only [getFinalStats]
    rw [if_pos hpos]
  · intro hnp
    simp only [getFinalStats]
    rw [if_neg (not_lt.mpr hnp)]
  · intro hpos
    simp only [getFinalStats]
    rw [if_pos hpos]
  · intro hnp
    simp only [getFinalStats]
    rw [if_neg (not_lt.mpr hnp)]

theorem zero_horizon_stats_witness :
    ((0, 0, 0) : ℚ × ℚ × ℚ) = (0, 0, 0) ∧
    (getFinalStats sClock7).1 = sClock7.clock ∧
    (getFinalStats sClock7).2.1 =
      sClock7.loaderBusyTime / ((sClock7.numLoaders : ℚ) * sClock7.clock) * 100 ∧
    (getFinalStats sAcc).2.1 = 0 ∧
    (getFinalStats sClock7).2.2 =
      sClock7.scaleBusyTime / ((sClock7.numScales : ℚ) * sClock7.clock) * 100 ∧
    (getFinalStats sAcc).2.2 = 0 := by
  have hrun : runStats (1 + 1) cfgZero = some (0, 0, 0) := by
    have hg : getRandomTime cpUnit.loading (cfgZero.rand 0) = 5 := rfl
    rw [runStats, runSim, runLoop]
    rw [show cfgZero.start.FEL = [⟨0, .ALQ, 1⟩] from rfl]
    dsimp only
    rw [if_neg (by
      rw [show cfgZero.start.maxSimTime = 0 from rfl]
      norm_num)]
    rw [runLoop]
    rw [show (dispatch ⟨0, .ALQ, 1⟩
        (accountAndAdvance { cfgZero.start with FEL := [] } ⟨0, .ALQ, 1⟩ 0)).FEL =
      [⟨0 + getRandomTime cpUnit.loading (cfgZero.rand 0), .EL, 1⟩] from rfl]
    dsimp only
    rw [if_pos (by
      rw [show (dispatch ⟨0, .ALQ, 1⟩
          (accountAndAdvance { cfgZero.start with FEL := [] } ⟨0, .ALQ, 1⟩ 0)).maxSimTime = 0
        from rfl, hg]
      norm_num)]
    simp only [Option.map_some']
    have hm0 : (dispatch ⟨0, .ALQ, 1⟩
        (accountAndAdvance { cfgZero.start with FEL := [] } ⟨0, .ALQ, 1⟩ 0)).maxSimTime
          = 0 := rfl
    rw [finalUpdate_skip (by norm_num [hm0])]
    rw [getFinalStats_zero (by exact hm0)]
  have happ := zero_horizon_stats cfgZero (1 + 1) (0, 0, 0) sClock7 rfl
    (by norm_num [cfgZero, cpUnit, TablesNonneg]) hrun
  have happ2 := zero_horizon_stats cfgZero (1 + 1) (0, 0, 0) sAcc rfl
    (by norm_num [cfgZero, cpUnit, TablesNonneg]) hrun
  refine ⟨happ.1, happ.2.1, ?_, ?_, ?_, ?_⟩
  · exact happ.2.2.1 (by norm_num [sClock7, sAcc])
  · exact happ2.2.2.2.1 (by norm_num [sAcc])
  · exact happ.2.2.2.2.1 (by norm_num [sClock7, sAcc])
  · exact happ2.2.2.2.2.2 (by norm_num [sAcc])

end DumpTruck
